import Mathlib

/-!
Shallow embedding of the repository's two modules,
`src/main/moving_prediction.py` and `src/main/moving_detection.py`,
with the theorems settling the frozen claims about them.

Conventions used throughout:
* Python/numpy floats are modelled as `ℚ` wherever the code only adds,
  multiplies, divides and compares (exact arithmetic), and as `ℝ` where the
  code takes square roots or exponentials (`RGB_MoG`, `np.linalg.norm`).
* numpy arrays indexed by a fixed extent are modelled as functions out of
  `Fin n`; full-frame images as functions of two indices.
* External numpy/scipy primitives that are not part of the repository
  (`np.polyfit`, `scipy.stats.norm.cdf`, the process-wide random source)
  are modelled as explicit oracle parameters, mirroring how the spec treats
  external interfaces.
-/

/- ===================================================================
   Part 1: moving_prediction.py
   =================================================================== -/

/-- np.polyval: Horner evaluation, highest-degree coefficient first. -/
def polyval (p : List ℚ) (x : ℚ) : ℚ :=
  p.foldl (fun acc c => acc * x + c) 0

/-- An IEEE scalar as produced by np.polyfit: a rational value or NaN. -/
inductive RVal where
  | nan : RVal
  | val : ℚ → RVal
deriving DecidableEq, Repr

/-- IEEE addition restricted to what the embedding needs: NaN propagates. -/
def RVal.add : RVal → RVal → RVal
  | RVal.val a, RVal.val b => RVal.val (a + b)
  | _, _ => RVal.nan

/-- IEEE multiplication restricted to what the embedding needs: NaN propagates. -/
def RVal.mul : RVal → RVal → RVal
  | RVal.val a, RVal.val b => RVal.val (a * b)
  | _, _ => RVal.nan

def RVal.isNan : RVal → Bool
  | RVal.nan => true
  | RVal.val _ => false

/-- Forget the NaN marker (used only after an explicit NaN screen). -/
def RVal.toQ : RVal → ℚ
  | RVal.nan => 0
  | RVal.val q => q

/-- np.polyval over possibly-NaN coefficients; NaN propagates through + and *. -/
def polyvalR (p : List RVal) (x : ℚ) : RVal :=
  p.foldl (fun acc c => RVal.add (RVal.mul acc (RVal.val x)) c) (RVal.val 0)

/-- The fit-error helper `sum_of_the_squares_of_the_residuals(a0, a1)`,
defined in moving_prediction.py as `np.sum((a0 - a1) ** 2)` (this local
definition shadows the wildcard import of `set_of_math_functions`):
the elementwise squared differences of the two equal-length sample
arrays, summed. -/
def sum_of_the_squares_of_the_residuals (points y : List ℚ) : ℚ :=
  ((points.zip y).map (fun pr => (pr.1 - pr.2) ^ 2)).sum

/-- The triple returned by `trajectory_poly_fitting` (a thin wrapper around the
external `np.polyfit` plus `np.sqrt` of the covariance diagonal): coefficients
(highest degree first, possibly NaN), per-coefficient standard deviations, and
the covariance matrix. The fitting itself is external numpy, so `find_functions`
is parametrised by the map from the requested degree to this triple. -/
structure PolyFit where
  popt : List RVal
  perr : List ℚ
  pcov : List (List ℚ)
deriving DecidableEq, Repr

/-- One entry of the `found_functions` dict: key "polyfit_model{deg}" with the
stored fields.  The nonlinear `curve_fit` path of the source is commented out,
so every candidate is a polynomial one. -/
structure Candidate where
  deg : ℕ
  function_params : List ℚ
  error : ℚ
  standard_deviation : List ℚ
  covariance_matrix : List (List ℚ)
deriving DecidableEq, Repr

/-- `max_poly = points.shape[0] - 1 if points.shape[0] - 1 <= 15 else 15`
(ℕ subtraction matches Python: for 0 points Python gets -1 and `range(-1)` is
empty, as is `List.range 0`). -/
def maxPoly (n : ℕ) : ℕ :=
  if n - 1 ≤ 15 then n - 1 else 15

/-- `y_ = generate_poly_trajectory(t, poly_params)`, i.e. np.polyval at the
sample times, for the degree-`i` fit. -/
def fitTrajectory (fit : ℕ → PolyFit) (t : List ℚ) (i : ℕ) : List RVal :=
  t.map (polyvalR (fit i).popt)

/-- The `np.sum(np.isnan(y_)) > 0` screen of `find_functions` (true = clean). -/
def fitIsClean (fit : ℕ → PolyFit) (t : List ℚ) (i : ℕ) : Bool :=
  !(fitTrajectory fit t i).any RVal.isNan

/-- `mean_error = sum_of_the_squares_of_the_residuals(points, y_)`. -/
def fitError (fit : ℕ → PolyFit) (t points : List ℚ) (i : ℕ) : ℚ :=
  sum_of_the_squares_of_the_residuals points ((fitTrajectory fit t i).map RVal.toQ)

/-- The dict entry registered for a passing degree `i`. -/
def candidateOf (fit : ℕ → PolyFit) (t points : List ℚ) (i : ℕ) : Candidate :=
  { deg := i
    function_params := (fit i).popt.map RVal.toQ
    error := fitError fit t points i
    standard_deviation := (fit i).perr
    covariance_matrix := (fit i).pcov }

/-- `find_functions(t, points, threshold_accuracy)`: for each degree in
`range(max_poly)` fit (externally), drop NaN trajectories, and keep the degrees
whose residual error is below the threshold, in loop order. -/
def find_functions (fit : ℕ → PolyFit) (t points : List ℚ)
    (threshold_accuracy : ℚ) : List Candidate :=
  (List.range (maxPoly points.length)).filterMap (fun i =>
    if fitIsClean fit t i then
      if fitError fit t points i < threshold_accuracy then
        some (candidateOf fit t points i)
      else none
    else none)

/-- The `deviation` argument of `get_future_points` (python strings
`''`, `'up'`, `'down'`). -/
inductive Deviation where
  | plain : Deviation
  | up : Deviation
  | down : Deviation
deriving DecidableEq, Repr

/-- The in-place `f_p += sd` / `f_p -= sd` of `get_future_points` (numpy
`+=` mutates the array stored in the dict). -/
def deviationParams (dev : Deviation) (p sd : List ℚ) : List ℚ :=
  match dev with
  | Deviation.plain => p
  | Deviation.up => List.zipWith (fun a b => a + b) p sd
  | Deviation.down => List.zipWith (fun a b => a - b) p sd

/-- `get_future_points(found_functions, tt, deviation)`.  Because `f_p += sd`
mutates the stored coefficient array, the embedding returns the updated
candidate collection alongside the evaluated trajectories (one row per
candidate). -/
def get_future_points (ff : List Candidate) (tt : List ℚ) (dev : Deviation) :
    List Candidate × List (List ℚ) :=
  (ff.map (fun c =>
      { c with function_params := deviationParams dev c.function_params c.standard_deviation }),
   ff.map (fun c =>
      tt.map (polyval (deviationParams dev c.function_params c.standard_deviation))))

/-- `show_found_functions_with_deviation`: computes the nominal, `'up'` and
`'down'` trajectories (in that order, each sharing the mutable candidate
state) and plots them.  Plotting is the external backend; the embedding
returns the model state the caller is left with. -/
def show_found_functions_with_deviation (ff : List Candidate)
    (_t _points tt _real_y : List ℚ) : List Candidate :=
  let s0 := (get_future_points ff tt Deviation.plain).1
  let s1 := (get_future_points s0 tt Deviation.up).1
  let s2 := (get_future_points s1 tt Deviation.down).1
  s2

/-- First entry of a trajectory row (`get_future_points` at the single time
`[t]` produces one value per candidate). -/
def rowHead (r : List ℚ) : ℚ := r.headD 0

/-- `get_gaussian_params(found_functions, t, threshold_sd)`: per-candidate mean
and worst-case deviation of the coefficient±sd perturbed polynomials, floored
at `threshold_sd`, with uniform weights.  The three `get_future_points` calls
share the mutable candidate state (`'up'` leaves the stored coefficients at
`p + sd`; the `'down'` call therefore evaluates at `p` and restores the
state), so the embedding threads the state and also returns it. -/
def get_gaussian_params (ff : List Candidate) (t : ℚ) (threshold_sd : ℚ) :
    (List ℚ × List ℚ × List ℚ) × List Candidate :=
  let mean := (get_future_points ff [t] Deviation.plain).2.map rowHead
  let up := get_future_points ff [t] Deviation.up
  let upv := up.2.map rowHead
  let down := get_future_points up.1 [t] Deviation.down
  let downv := down.2.map rowHead
  let sdUp := List.zipWith (fun a b => |a - b|) upv mean
  let sdDown := List.zipWith (fun a b => |a - b|) downv mean
  let sd0 := List.zipWith max sdUp sdDown
  let sd := sd0.map (fun s => if s > threshold_sd then s else threshold_sd)
  let weights := List.replicate ff.length ((ff.length : ℚ))⁻¹
  ((mean, sd, weights), down.1)

/-- Python's `round` (and numpy's): round half to even. -/
def roundHalfEven (x : ℚ) : ℤ :=
  let f := ⌊x⌋
  let r := x - f
  if r < 1/2 then f
  else if r > 1/2 then f + 1
  else if 2 ∣ f then f else f + 1

/-- `np.arange(start, stop, step)` for a positive step (`max(0,⌈(b-a)/s⌉)`
points); empty for a non-positive step (the source never reaches that case:
a zero step crashes Python earlier, in the `round` division). -/
def arange (start stop step : ℚ) : List ℚ :=
  if 0 < step then
    (List.range (Int.toNat ⌈(stop - start) / step⌉)).map
      (fun k => start + step * k)
  else []

/-- Minimum entry of a list (junk 0 on the empty list, where np.min raises). -/
def listMin (l : List ℚ) : ℚ := l.foldl min (l.headD 0)

/-- Maximum entry of a list (junk 0 on the empty list, where np.max raises). -/
def listMax (l : List ℚ) : ℚ := l.foldl max (l.headD 0)

/-- `probability_of_being_in_point(found_functions, t, step, align_to_maximum)`.
`cdf mean sd x` is the external `scipy.stats.norm(mean, sd).cdf(x)`.
Note the source passes `step` as `get_gaussian_params`' third positional
argument `threshold_sd`. -/
def probability_of_being_in_point (cdf : ℚ → ℚ → ℚ → ℚ) (ff : List Candidate)
    (t step : ℚ) (align_to_maximum : Bool) : List ℚ × List ℚ :=
  let gp := get_gaussian_params ff t step
  let mean := gp.1.1
  let standard_deviation := gp.1.2.1
  let weights := gp.1.2.2
  let pMin0 := listMin mean
  let pMax := listMax mean
  let sMax := 4 * listMax standard_deviation
  let pMin := (roundHalfEven ((pMin0 - sMax) / step) : ℚ) * step - step / 2
  let points0 := arange pMin (pMax + sMax) step
  let points :=
    if points0.length < 3 then
      [pMin - sMax - step, pMin - sMax, pMax + sMax, pMax + sMax + step]
    else points0
  let allC := points.map (fun x =>
    (List.zip (List.zip mean standard_deviation) weights).foldl
      (fun acc msw => acc + cdf msw.1.1 msw.1.2 x * msw.2) 0)
  let probabilities := List.zipWith (fun a b => a - b) allC.tail (allC.dropLast)
  let pointsBetween := points.tail.map (fun x => x - step / 2)
  let probabilities :=
    if align_to_maximum then probabilities.map (fun p => p / listMax probabilities)
    else probabilities
  (probabilities, pointsBetween)

/-- A 3-vector of reals (a row of an N×3 numpy array). -/
abbrev Vec3 := ℝ × ℝ × ℝ

noncomputable instance : DecidableEq ℝ := fun _ _ => Classical.propDecidable _

noncomputable instance (p q : ℝ) : Decidable (p < q) := Classical.propDecidable _

/-- `np.linalg.norm` of a 3-vector. -/
noncomputable def vecNorm (v : Vec3) : ℝ :=
  Real.sqrt (v.1 ^ 2 + v.2.1 ^ 2 + v.2.2 ^ 2)

/-- Componentwise `np.abs(point - center)`. -/
def absDiff (p c : Vec3) : Vec3 :=
  (|p.1 - c.1|, |p.2.1 - c.2.1|, |p.2.2 - c.2.2|)

/-- `find_points_in_radius(points, center, radius)`: the indices whose
`np.linalg.norm(np.abs(point - center))` is below `radius`, with the
corresponding rows of `radii = np.abs(points - center)`. -/
noncomputable def find_points_in_radius (points : List Vec3) (center : Vec3)
    (radius : ℝ) : List ℕ × List Vec3 :=
  let radii := points.map (fun p => absDiff p center)
  let indices := (List.range points.length).filter
    (fun i => decide (vecNorm (radii.getD i (0, 0, 0)) < radius))
  let selected := radii.filter (fun r => decide (vecNorm r < radius))
  (indices, selected)

/- ===================================================================
   Part 2: moving_detection.py — shared utilities and region growing
   =================================================================== -/

/-- A pixel position (row, column). -/
abbrev Pixel := ℕ × ℕ

/-- A 2-D numpy array as a total function; only in-bounds entries are
meaningful (the frame extent is carried separately, as numpy carries
`shape`). -/
abbrev Grid := ℕ → ℕ → ℚ

/-- Single-entry array assignment `a[p] = v`. -/
def gridUpdate (g : Grid) (p : Pixel) (v : ℚ) : Grid :=
  fun i j => if i = p.1 ∧ j = p.2 then v else g i j

/-- Row-major list of the pixels of an H×W frame (the order numpy flattens
in, which fixes `np.argmax` tie-breaking). -/
def pixelList (H W : ℕ) : List Pixel :=
  (List.range H).flatMap (fun i => (List.range W).map (fun j => (i, j)))

/-- The same pixel set as a finset, for counting. -/
def pixelFinset (H W : ℕ) : Finset Pixel :=
  Finset.range H ×ˢ Finset.range W

/-- `np.sum` over an H×W array. -/
def gridSum (H W : ℕ) (g : Grid) : ℚ :=
  ((pixelList H W).map (fun p => g p.1 p.2)).sum

/-- `np.argmax` over the row-major flattening: the first pixel attaining the
maximum (the source recovers (i, j) from the flat index by div/mod). -/
def argmaxPixel (H W : ℕ) (g : Grid) : Pixel :=
  (pixelList H W).foldl (fun best p => if g p.1 p.2 > g best.1 best.2 then p else best)
    ((pixelList H W).headD (0, 0))

/-- The BFS working state of one region: the deque `q`, the remaining seed
array, the global `done` flags and the region mask being built. -/
structure BFSState where
  q : List Pixel
  seeds : Grid
  done : Grid
  mask : Grid

/-- The nine cells `range(i-1, i+2) × range(j-1, j+2)` scanned from a popped
pixel, as integer cells (Python iterates them even when negative and
bound-checks inside the loop), in the source's row-major scan order. -/
def neighborCells (ind : Pixel) : List (ℤ × ℤ) :=
  [(-1, -1), (-1, 0), (-1, 1), (0, -1), (0, 0), (0, 1), (1, -1), (1, 0), (1, 1)].map
    (fun d => ((ind.1 : ℤ) + d.1, (ind.2 : ℤ) + d.2))

/-- In-bounds test `-1 < i < H and -1 < j < W`. -/
def cellInBounds (H W : ℕ) (c : ℤ × ℤ) : Prop :=
  0 ≤ c.1 ∧ c.1 < (H : ℤ) ∧ 0 ≤ c.2 ∧ c.2 < (W : ℤ)

instance (H W : ℕ) (c : ℤ × ℤ) : Decidable (cellInBounds H W c) := by
  unfold cellInBounds; infer_instance

/-- One scanned cell of the 8-neighbourhood loop: a neighbour is admitted if
it is in bounds, not yet done, has an in-range depth (< 1) and differs from
the discovering pixel's depth by less than the threshold; admission enqueues
it, clears its seed and flags it done and in the region mask. -/
def admitCell (depth : Grid) (H W : ℕ) (thr : ℚ) (ind : Pixel)
    (s : BFSState) (c : ℤ × ℤ) : BFSState :=
  if cellInBounds H W c then
    let p : Pixel := (c.1.toNat, c.2.toNat)
    if s.done p.1 p.2 = 1 then s
    else if 1 ≤ depth p.1 p.2 then s
    else if |depth p.1 p.2 - depth ind.1 ind.2| < thr then
      { q := s.q ++ [p]
        seeds := gridUpdate s.seeds p 0
        done := gridUpdate s.done p 1
        mask := gridUpdate s.mask p 1 }
    else s
  else s

/-- One admission pass over the eight neighbours (and the cell itself) of a
popped pixel. -/
def admitScan (depth : Grid) (H W : ℕ) (thr : ℚ) (ind : Pixel)
    (st : BFSState) : BFSState :=
  (neighborCells ind).foldl (admitCell depth H W thr ind) st

/-- The `while q:` breadth-first growth loop, with explicit fuel (the caller
passes `H*W + 1`, which the termination lemmas show is enough: every
processed pixel either shrinks the queue or marks a fresh pixel done). -/
def bfsRun (depth : Grid) (H W : ℕ) (thr : ℚ) : ℕ → BFSState → BFSState
  | 0, st => st
  | fuel + 1, st =>
    match st.q with
    | [] => st
    | ind :: rest =>
      bfsRun depth H W thr fuel
        (admitScan depth H W thr ind { st with q := rest })

/-- The outer-loop state of `region_growing`: remaining seeds, global done
flags, and the masks collected so far. -/
structure RGState where
  seeds : Grid
  done : Grid
  masks : List Grid

/-- One iteration of the outer `while not np.sum(seeds) == 0` loop: pick the
maximal seed as root, grow its region, and keep the region mask only when it
holds more than `significant_number_of_points` pixels. -/
def rgStep (depth : Grid) (H W : ℕ) (thr : ℚ) (sig : ℕ) (st : RGState) : RGState :=
  let root := argmaxPixel H W st.seeds
  let f := bfsRun depth H W thr (H * W + 1)
    { q := [root]
      seeds := gridUpdate st.seeds root 0
      done := gridUpdate st.done root 1
      mask := gridUpdate (fun _ _ => 0) root 1 }
  { seeds := f.seeds
    done := f.done
    masks := if gridSum H W f.mask > (sig : ℚ) then st.masks ++ [f.mask] else st.masks }

/-- The outer loop with explicit fuel; the loop exits as soon as the seed sum
is zero. -/
def rgLoop (depth : Grid) (H W : ℕ) (thr : ℚ) (sig : ℕ) : ℕ → RGState → RGState
  | 0, st => st
  | fuel + 1, st =>
    if gridSum H W st.seeds = 0 then st
    else rgLoop depth H W thr sig fuel (rgStep depth H W thr sig st)

/-- The set of pixels holding a nonzero seed (the loop's variant: each
iteration strictly shrinks it when depths are nonnegative). -/
def posSet (H W : ℕ) (g : Grid) : Finset Pixel :=
  (pixelFinset H W).filter (fun p => g p.1 p.2 ≠ 0)

/-- Fuel that suffices for the outer loop under the intended inputs (masks
valued in {0,1}, nonnegative depths): the number of nonzero seeds. -/
def rgFuel (H W : ℕ) (g : Grid) : ℕ := (posSet H W g).card

/-- `seeds = movement_mask * current_depth`. -/
def initialSeeds (movement_mask current_depth : Grid) : Grid :=
  fun i j => movement_mask i j * current_depth i j

/-- `region_growing(movement_mask, current_depth, depth_threshold,
significant_number_of_points)` for an H×W frame.  (On inputs with negative
seed values the Python loop can spin forever; the fuel then truncates it.
The termination claim is settled by an explicit theorem below.) -/
def region_growing (movement_mask current_depth : Grid) (H W : ℕ)
    (depth_threshold : ℚ) (significant_number_of_points : ℕ) : List Grid :=
  let seeds := initialSeeds movement_mask current_depth
  (rgLoop current_depth H W depth_threshold significant_number_of_points
      (rgFuel H W seeds)
      { seeds := seeds, done := fun _ _ => 0, masks := [] }).masks

/- ===================================================================
   Part 3: moving_detection.py — ViBE and DEVB
   =================================================================== -/

/-- An RGB (or YUV) triple. -/
abbrev Color := ℚ × ℚ × ℚ

/-- `color_distance`: sum of squared per-channel differences (no square
root; callers compare against squared thresholds). -/
def color_distance (current_pixel sample_pixel : Color) : ℚ :=
  (current_pixel.1 - sample_pixel.1) * (current_pixel.1 - sample_pixel.1) +
  (current_pixel.2.1 - sample_pixel.2.1) * (current_pixel.2.1 - sample_pixel.2.1) +
  (current_pixel.2.2 - sample_pixel.2.2) * (current_pixel.2.2 - sample_pixel.2.2)

/-- `RGB_to_YUV` on one pixel: `yuv = rgb · m`, then U and V offset by +128. -/
def RGB_to_YUV_pixel (c : Color) : Color :=
  (0.299 * c.1 + 0.587 * c.2.1 + 0.114 * c.2.2,
   -0.16874 * c.1 + -0.33126 * c.2.1 + 0.5 * c.2.2 + 128,
   0.5 * c.1 + -0.41869 * c.2.1 + -0.08131 * c.2.2 + 128)

/-- The mutable state of a `ViBЕ` instance for an H×W frame with S samples
per pixel. -/
structure ViBEState (H W S : ℕ) where
  current_rgb : Fin H → Fin W → Color
  previous_rgb : Fin H → Fin W → Color
  background : Fin H → Fin W → Fin S → Color
  mask : Fin H → Fin W → ℚ

/-- The process-wide random source, restricted to the draws one `set_pixel`
call consumes, supplied per pixel: the two `time_factor_chance` Bernoulli
draws, the two `random.randrange` sample slots, and the row/column produced
by `get_random_neighbour` (whose rejection sampling always yields an
in-range index, which the `Fin` type records). -/
structure ViBEDraws (H W S : ℕ) where
  chance1 : Fin H → Fin W → Bool
  slot1 : Fin H → Fin W → Fin S
  chance2 : Fin H → Fin W → Bool
  ni : Fin H → Fin W → Fin H
  nj : Fin H → Fin W → Fin W
  slot2 : Fin H → Fin W → Fin S

/-- The early-stopping sample count of `in_background`: the loop returns as
soon as `close_pixels` reaches `threshold_lambda`. -/
def inBackgroundLoop (cur : Color) (samples : Fin S → Color) (threshold_r : ℚ)
    (threshold_lambda : ℕ) : List (Fin S) → ℕ → Bool
  | [], _ => false
  | k :: rest, close =>
    let close' := if color_distance cur (samples k) < threshold_r then close + 1 else close
    if threshold_lambda ≤ close' then true
    else inBackgroundLoop cur samples threshold_r threshold_lambda rest close'

/-- `in_background(i, j)` for ViBE and DEVB (both classes carry the same
method body). -/
def vibe_in_background (threshold_r : ℚ) (threshold_lambda : ℕ)
    (cur : Color) (samples : Fin S → Color) : Bool :=
  inBackgroundLoop cur samples threshold_r threshold_lambda (List.finRange S) 0

/-- `update_sample(goal_i, goal_j, set_i, set_j)` with the drawn slot. -/
def vibe_update_sample (bg : Fin H → Fin W → Fin S → Color)
    (goal : Fin H × Fin W) (slot : Fin S) (v : Color) :
    Fin H → Fin W → Fin S → Color :=
  fun i j k => if i = goal.1 ∧ j = goal.2 ∧ k = slot then v else bg i j k

/-- Write one mask entry. -/
def maskWrite (m : Fin H → Fin W → ℚ) (p : Fin H × Fin W) (v : ℚ) :
    Fin H → Fin W → ℚ :=
  fun i j => if i = p.1 ∧ j = p.2 then v else m i j

/-- `ViBЕ.set_pixel(i, j)`. -/
def vibe_set_pixel (threshold_r : ℚ) (threshold_lambda : ℕ)
    (draws : ViBEDraws H W S) (st : ViBEState H W S) (p : Fin H × Fin W) :
    ViBEState H W S :=
  let i := p.1
  let j := p.2
  if vibe_in_background threshold_r threshold_lambda (st.current_rgb i j) (st.background i j) then
    let st1 := { st with mask := maskWrite st.mask p 0 }
    let st2 :=
      if draws.chance1 i j then
        let bg1 := vibe_update_sample st1.background (i, j) (draws.slot1 i j) (st1.current_rgb i j)
        { st1 with background := bg1 }
      else st1
    if draws.chance2 i j then
      let bg2 := vibe_update_sample st2.background (draws.ni i j, draws.nj i j) (draws.slot2 i j)
        (st2.current_rgb i j)
      { st2 with background := bg2 }
    else st2
  else
    { st with mask := maskWrite st.mask p 1 }

/-- Row-major traversal of the `Fin`-indexed frame. -/
def finPixelList (H W : ℕ) : List (Fin H × Fin W) :=
  (List.finRange H).flatMap (fun i => (List.finRange W).map (fun j => (i, j)))

/-- `ViBЕ.set_mask()`: `set_pixel` on every pixel in row-major order. -/
def vibe_set_mask (threshold_r : ℚ) (threshold_lambda : ℕ)
    (draws : ViBEDraws H W S) (st : ViBEState H W S) : ViBEState H W S :=
  (finPixelList H W).foldl (vibe_set_pixel threshold_r threshold_lambda draws) st

/-- The mutable state of a `DEVB` instance. -/
structure DEVBState (H W S : ℕ) where
  current_rgb : Fin H → Fin W → Color
  current_depth : Fin H → Fin W → ℚ
  previous_rgb : Fin H → Fin W → Color
  background : Fin H → Fin W → Fin S → Color
  depth_background : Fin H → Fin W → ℚ
  mask : Fin H → Fin W → ℚ

/-- `DEVB.set_pixel(i, j)`: ViBE's colour test, with the depth-background
gate on the foreground branch. -/
def devb_set_pixel (threshold_r : ℚ) (threshold_lambda : ℕ) (threshold_theta : ℚ)
    (draws : ViBEDraws H W S) (st : DEVBState H W S) (p : Fin H × Fin W) :
    DEVBState H W S :=
  let i := p.1
  let j := p.2
  if vibe_in_background threshold_r threshold_lambda (st.current_rgb i j) (st.background i j) then
    let st1 := { st with mask := maskWrite st.mask p 0 }
    let st2 :=
      if draws.chance1 i j then
        let bg1 := vibe_update_sample st1.background (i, j) (draws.slot1 i j) (st1.current_rgb i j)
        { st1 with background := bg1 }
      else st1
    if draws.chance2 i j then
      let bg2 := vibe_update_sample st2.background (draws.ni i j, draws.nj i j) (draws.slot2 i j)
        (st2.current_rgb i j)
      let db2 : Fin H → Fin W → ℚ := fun i' j' =>
        if i' = i ∧ j' = j then st2.current_depth i j else st2.depth_background i' j'
      { st2 with background := bg2, depth_background := db2 }
    else st2
  else
    if st.depth_background i j - st.current_depth i j > threshold_theta then
      let st1 := { st with mask := maskWrite st.mask p 1 }
      let st2 :=
        if draws.chance1 i j then
          let bg1 := vibe_update_sample st1.background (i, j) (draws.slot1 i j) (st1.current_rgb i j)
          { st1 with background := bg1 }
        else st1
      let st3 :=
        if draws.chance2 i j then
          let bg2 := vibe_update_sample st2.background (draws.ni i j, draws.nj i j) (draws.slot2 i j)
            (st2.current_rgb i j)
          { st2 with background := bg2 }
        else st2
      let db3 : Fin H → Fin W → ℚ := fun i' j' =>
        if i' = i ∧ j' = j then st3.current_depth i j else st3.depth_background i' j'
      { st3 with depth_background := db3 }
    else
      { st with mask := maskWrite st.mask p 0 }

/-- `DEVB.set_mask()`. -/
def devb_set_mask (threshold_r : ℚ) (threshold_lambda : ℕ) (threshold_theta : ℚ)
    (draws : ViBEDraws H W S) (st : DEVBState H W S) : DEVBState H W S :=
  (finPixelList H W).foldl (devb_set_pixel threshold_r threshold_lambda threshold_theta draws) st

/- ===================================================================
   Part 4: moving_detection.py — RGB Mixture of Gaussians
   =================================================================== -/

/-- Stable insertion into a descending-by-key sorted list (the element goes
after every element of at least its key). -/
def insertByKeyDesc {α β : Type} [LinearOrder β] (key : α → β) (a : α) :
    List α → List α
  | [] => [a]
  | b :: rest =>
    if key b < key a then a :: b :: rest else b :: insertByKeyDesc key a rest

/-- `np.argsort` of the negated key: indices ordered by descending key,
ties kept in index order (numpy's sort is stable on these tiny arrays). -/
def argsortDesc {n : ℕ} {β : Type} [LinearOrder β] (key : Fin n → β) : List (Fin n) :=
  (List.finRange n).foldl (fun acc i => insertByKeyDesc key i acc) []

/-- One per-pixel record of `RGB_MoG.__gaussians` (`n` components over `ch`
colour channels, one shared scalar variance per component). -/
structure RGBGaussRec (n ch : ℕ) where
  index : Pixel
  color_mean : Fin n → Fin ch → ℝ
  color_variance : Fin n → ℝ
  weight : Fin n → ℝ
  ranking : List (Fin n)

/-- `RGB_MoG.set_raking`: rank by descending `weight / color_variance`. -/
noncomputable def rgb_mog_set_raking (g : RGBGaussRec n ch) : RGBGaussRec n ch :=
  { g with ranking := argsortDesc (fun i => g.weight i / g.color_variance i) }

/-- `RGB_MoG.probability`: the matching criterion
`sqrt(dist²) < 2.5 · variance` and the Gaussian density used as ρ's factor. -/
noncomputable def rgb_mog_probability (cur : Fin ch → ℝ) (g : RGBGaussRec n ch) :
    (Fin n → Bool) × (Fin n → ℝ) :=
  let dist_square : Fin n → ℝ :=
    fun i => (∑ c, (cur c - g.color_mean i c) ^ 2) / g.color_variance i
  let dist : Fin n → ℝ := fun i => Real.sqrt (dist_square i)
  let probability : Fin n → ℝ := fun i =>
    Real.exp (dist_square i / (-2)) / (Real.sqrt ((2 * Real.pi) ^ 3) * g.color_variance i)
  (fun i => decide (dist i < 5/2 * g.color_variance i), probability)

/-- `RGB_MoG.update`: with `update_mask = np.where(any_match, matching, -1)`,
matching components get the exponential weight/variance/mean updates
(`ρ = α·probability`, squared error summed over every component's mean);
all other rows of the `np.where` fall to the second branch: weight decays,
variance is reset to `3 + 1`, and the mean is overwritten with the current
colour. -/
noncomputable def rgb_mog_update (alfa : ℝ) (cur : Fin ch → ℝ) (g : RGBGaussRec n ch)
    (matching_criterion : Fin n → Bool) (probability : Fin n → ℝ) : RGBGaussRec n ch :=
  let learning_rate_ro : Fin n → ℝ := fun i => alfa * probability i
  let update_status := (List.finRange n).any matching_criterion
  let update_mask : Fin n → ℤ :=
    fun i => if update_status then (if matching_criterion i then 1 else 0) else -1
  let squaredError : ℝ := ∑ i, ∑ c, (cur c - g.color_mean i c) ^ 2
  let weight' : Fin n → ℝ := fun i =>
    if update_mask i = 1 then (1 - alfa) * g.weight i + alfa else (1 - alfa) * g.weight i
  let variance' : Fin n → ℝ := fun i =>
    if update_mask i = 1 then
      Real.sqrt ((1 - learning_rate_ro i) * g.color_variance i ^ 2 +
        learning_rate_ro i * squaredError)
    else 3 + 1
  let mean' : Fin n → Fin ch → ℝ := fun i c =>
    if update_mask i = 1 then
      (1 - learning_rate_ro i) * g.color_mean i c + learning_rate_ro i * cur c
    else cur c
  { g with weight := weight', color_variance := variance', color_mean := mean' }

/-- `RGB_MoG.make_mask`: 0 (background) if any component matched, else 255. -/
def rgb_mog_make_mask (matching_criterion : Fin n → Bool) : ℝ :=
  if (List.finRange n).any matching_criterion then 0 else 255

/-- The mutable state of an `RGB_MoG` instance: the per-pixel records in
construction order and the mask array. -/
structure RGBMoGState (n ch : ℕ) where
  gaussians : List (RGBGaussRec n ch)
  mask : Pixel → ℝ

/-- The body of `RGB_MoG.set_mask`'s loop for one record: rank, match,
update, and write the pixel's mask entry. -/
noncomputable def rgb_mog_pixel (alfa : ℝ) (rgb_im : Pixel → Fin ch → ℝ)
    (g : RGBGaussRec n ch) : RGBGaussRec n ch × ℝ :=
  let g1 := rgb_mog_set_raking g
  let mp := rgb_mog_probability (rgb_im g1.index) g1
  let g2 := rgb_mog_update alfa (rgb_im g1.index) g1 mp.1 mp.2
  (g2, rgb_mog_make_mask mp.1)

/-- `RGB_MoG.set_mask(rgb_im)`: process every stored record, writing its
pixel's mask entry. -/
noncomputable def rgb_mog_set_mask (alfa : ℝ) (rgb_im : Pixel → Fin ch → ℝ)
    (st : RGBMoGState n ch) : RGBMoGState n ch :=
  st.gaussians.foldl (fun s g =>
    let r := rgb_mog_pixel alfa rgb_im g
    { gaussians := s.gaussians ++ [r.1]
      mask := fun p => if p = g.index then r.2 else s.mask p })
    { gaussians := [], mask := st.mask }

/-- `RGB_MoG.__init__` for an H×W frame: one record per pixel in row-major
order (means = first frame's colours, unit variances, uniform weights,
sequential ranking), mask all zeros. -/
noncomputable def rgb_mog_init (n ch H W : ℕ) (rgb_im : Pixel → Fin ch → ℝ) :
    RGBMoGState n ch :=
  { gaussians := (pixelList H W).map (fun p =>
      { index := p
        color_mean := fun _ c => rgb_im p c
        color_variance := fun _ => 1
        weight := fun _ => (n : ℝ)⁻¹
        ranking := List.finRange n })
    mask := fun _ => 0 }

/- ===================================================================
   Part 5: moving_detection.py — RGBD Mixture of Gaussians
   =================================================================== -/

/-- The constructor parameters of `RGBD_MoG` (and of its Fast variant). -/
structure RGBDParams where
  learning_rate_alfa : ℚ
  depth_reliability_ro : ℚ
  matching_rate_beta : ℚ
  luminance_min : ℚ
  depth_threshold : ℚ
  reliability_threshold : ℚ
deriving DecidableEq, Repr

/-- The source defaults. -/
def rgbdDefaults : RGBDParams :=
  { learning_rate_alfa := 0.025
    depth_reliability_ro := 0.2
    matching_rate_beta := 2.5
    luminance_min := 16
    depth_threshold := 0.01
    reliability_threshold := 0.4 }

/-- One per-pixel record of `RGBD_MoG.__gaussians` (`n` components over
luminance, two chroma channels and depth). -/
structure RGBDGaussRec (n : ℕ) where
  index : Pixel
  luminance_mean : Fin n → ℚ
  color_mean : Fin n → ℚ × ℚ
  depth_mean : Fin n → ℚ
  luminance_variance : Fin n → ℚ
  color_variance : Fin n → ℚ
  depth_variance : Fin n → ℚ
  weight : Fin n → ℚ
  ranking : List (Fin n)
  depth_observations : Fin n → ℚ × ℚ

instance : Inhabited (RGBDGaussRec n) :=
  ⟨{ index := (0, 0)
     luminance_mean := fun _ => 0
     color_mean := fun _ => (0, 0)
     depth_mean := fun _ => 0
     luminance_variance := fun _ => 0
     color_variance := fun _ => 0
     depth_variance := fun _ => 0
     weight := fun _ => 0
     ranking := []
     depth_observations := fun _ => (0, 0) }⟩

/-- `RGBD_MoG.set_ranking`: rank by descending `weight / luminance_variance`. -/
def rgbd_set_ranking (g : RGBDGaussRec n) : RGBDGaussRec n :=
  { g with ranking := argsortDesc (fun i => g.weight i / g.luminance_variance i) }

/-- Pointwise update of a `Fin n`-indexed flag array. -/
def flagSet (f : Fin n → ℕ) (k : Fin n) : Fin n → ℕ :=
  fun i => if i = k then 1 else f i

/-- `RGBD_MoG.matching`.  The colour criterion mirrors the numpy expression:
`np.where(cond1, np.add(cond2, cond3), cond2)` adds the two booleans into an
int (so its value can be 2), and the final `np.bitwise_and` combines the
boolean depth test with that int bitwise (so a colour value of 2 ANDs with
a depth bit of 1 to 0). -/
def rgbd_matching (P : RGBDParams) (yuv : Color) (depth_pixel : ℚ)
    (g : RGBDGaussRec n) : Fin n → ℕ :=
  let beta := P.matching_rate_beta ^ 2
  let depth_matching : Fin n → Bool := fun i =>
    decide ((depth_pixel - g.depth_mean i) ^ 2 < beta * g.depth_variance i) ||
    (decide (depth_pixel = 255) ||
     decide ((g.depth_observations i).1 / (g.depth_observations i).2 < P.depth_reliability_ro))
  let color_condition_1 : Fin n → Bool := fun i =>
    decide (g.luminance_mean i > P.luminance_min) && decide (yuv.1 > P.luminance_min)
  let color_condition_2 : Fin n → Bool := fun i =>
    decide ((yuv.1 - g.luminance_mean i) ^ 2 < beta * g.luminance_variance i)
  let color_condition_3 : Fin n → Bool := fun i =>
    decide (((yuv.2.1 - (g.color_mean i).1) + (yuv.2.2 - (g.color_mean i).2)) ^ 2 <
      beta * g.color_variance i)
  let color_matching : Fin n → ℕ := fun i =>
    if color_condition_1 i then (color_condition_2 i).toNat + (color_condition_3 i).toNat
    else (color_condition_2 i).toNat
  fun i => (depth_matching i).toNat &&& color_matching i

/-- `RGBD_MoG.update`: if any component matches (`np.bitwise_or.reduce`),
each matching component's means/variances/weight/depth-observations update
exponentially; otherwise the lowest-ranked component (`ranking[-1]`) is
replaced wholesale. -/
def rgbd_update [NeZero n] (P : RGBDParams) (yuv : Color) (depth_pixel : ℚ)
    (number_of_observations : ℚ) (g : RGBDGaussRec n) (matching : Fin n → ℕ) :
    RGBDGaussRec n :=
  let alfa := P.learning_rate_alfa
  if (List.finRange n).any (fun i => matching i != 0) then
    { g with
      luminance_variance := fun i =>
        if matching i ≠ 0 then
          (1 - alfa) * g.luminance_variance i + alfa * (yuv.1 - g.luminance_mean i) ^ 2
        else g.luminance_variance i
      luminance_mean := fun i =>
        if matching i ≠ 0 then (1 - alfa) * g.luminance_mean i + alfa * yuv.1
        else g.luminance_mean i
      color_variance := fun i =>
        if matching i ≠ 0 then
          (1 - alfa) * g.color_variance i +
            alfa * ((yuv.2.1 - (g.color_mean i).1) ^ 2 + (yuv.2.2 - (g.color_mean i).2) ^ 2)
        else g.color_variance i
      color_mean := fun i =>
        if matching i ≠ 0 then
          ((1 - alfa) * (g.color_mean i).1 + alfa * yuv.2.1,
           (1 - alfa) * (g.color_mean i).2 + alfa * yuv.2.2)
        else g.color_mean i
      depth_observations := fun i =>
        if matching i ≠ 0 then
          ((1 - alfa) * (g.depth_observations i).1 +
            alfa * (if depth_pixel < 255 then 1 else 0),
           number_of_observations)
        else g.depth_observations i
      depth_variance := fun i =>
        if matching i ≠ 0 then
          (1 - alfa) * g.depth_variance i + alfa * (depth_pixel - g.depth_mean i) ^ 2
        else g.depth_variance i
      depth_mean := fun i =>
        if matching i ≠ 0 then (1 - alfa) * g.depth_mean i + alfa * depth_pixel
        else g.depth_mean i
      weight := fun i =>
        if matching i ≠ 0 then (1 - alfa) * g.weight i + alfa * (matching i : ℚ)
        else g.weight i }
  else
    let index := g.ranking.getLastD ⟨0, Nat.pos_of_ne_zero (NeZero.ne n)⟩
    { g with
      luminance_mean := fun i => if i = index then yuv.1 else g.luminance_mean i
      color_mean := fun i => if i = index then yuv.2 else g.color_mean i
      depth_mean := fun i => if i = index then depth_pixel else g.depth_mean i
      luminance_variance := fun i => if i = index then 1 else g.luminance_variance i
      color_variance := fun i => if i = index then 1 else g.color_variance i
      depth_variance := fun i => if i = index then 1 else g.depth_variance i
      weight := fun i => if i = index then alfa else g.weight i
      depth_observations := fun i =>
        if i = index then
          (alfa * (if depth_pixel < 255 then 1 else 0), number_of_observations)
        else g.depth_observations i }

/-- The `while threshold < reliability_threshold` loop body inside
`pixel_mask`'s colour-reliability scan: it repeatedly adds the SAME
component's weight.  Returns the final threshold and whether the body ran at
least once (which is when the component gets marked).  The fuel computed by
`crFuel` is exact when the weight is positive; for a non-positive weight the
Python loop never terminates. -/
def crWhile (rt w : ℚ) : ℕ → ℚ → ℚ × Bool
  | 0, th => (th, false)
  | fuel + 1, th =>
    if th < rt then ((crWhile rt w fuel (th + w)).1, true) else (th, false)

/-- Iteration budget for `crWhile`: one more than the exact number of
additions needed when `0 < w`. -/
def crFuel (rt th w : ℚ) : ℕ :=
  if 0 < w then (⌈(rt - th) / w⌉).toNat + 1 else 1

/-- `RGBD_MoG.pixel_mask`: the depth-reliability walk over components in
descending depth-mean order, the colour-reliability walk over the ranking,
and the final background vote.  The chained
`gauss.weight[index] > self.__depth_threshold < 255` comparison is kept as
the conjunction Python evaluates. -/
def rgbd_pixel_mask (P : RGBDParams) (yuv : Color) (depth_pixel : ℚ)
    (g : RGBDGaussRec n) (matching : Fin n → ℕ) : ℚ :=
  let dwalk := (argsortDesc g.depth_mean).foldl
    (fun (acc : ℚ × (Fin n → ℕ)) index =>
      if (g.depth_observations index).1 / (g.depth_observations index).2 >
          P.depth_reliability_ro ∧ g.weight index > P.depth_threshold ∧
          P.depth_threshold < 255 then
        if g.depth_mean index ≥ acc.1 then (g.depth_mean index, flagSet acc.2 index)
        else acc
      else acc)
    (0, fun _ => 0)
  let depth_reliability := dwalk.2
  let cwalk := g.ranking.foldl
    (fun (acc : ℚ × (Fin n → ℕ)) index =>
      let r := crWhile P.reliability_threshold (g.weight index)
        (crFuel P.reliability_threshold acc.1 (g.weight index)) acc.1
      (r.1, if r.2 then flagSet acc.2 index else acc.2))
    (0, fun _ => 0)
  let color_reliability := cwalk.2
  let pixel_reliability := decide (depth_pixel = 255) && decide (yuv.1 ≤ P.luminance_min)
  let background :=
    ((List.finRange n).any fun i => (matching i &&& color_reliability i) != 0) ||
    ((List.finRange n).any fun i => (matching i &&& depth_reliability i) != 0) ||
    pixel_reliability
  if background then 0 else 255

/-- The mutable state of an `RGBD_MoG` instance. -/
structure RGBDMoGState (n : ℕ) where
  gaussians : List (RGBDGaussRec n)
  mask : Pixel → ℚ

/-- The body of `RGBD_MoG.set_mask`'s loop for one record: rank, match,
update, classify. -/
def rgbd_pixel [NeZero n] (P : RGBDParams) (yuv_im : Pixel → Color)
    (depth_im : Pixel → ℚ) (number_of_observations : ℚ) (g : RGBDGaussRec n) :
    RGBDGaussRec n × ℚ :=
  let g1 := rgbd_set_ranking g
  let yuv := yuv_im g1.index
  let d := depth_im g1.index
  let m := rgbd_matching P yuv d g1
  let g2 := rgbd_update P yuv d number_of_observations g1 m
  (g2, rgbd_pixel_mask P yuv d g2 m)

/-- `RGBD_MoG.set_mask(rgb_im, depth_im)`: the shared frame counter is read
off the first record (`gaussians[0].depth_observations[0, 1] + 1`), then
every record is processed and its pixel's mask entry written. -/
def rgbd_set_mask [NeZero n] (P : RGBDParams) (rgb_im : Pixel → Color)
    (depth_im : Pixel → ℚ) (st : RGBDMoGState n) : RGBDMoGState n :=
  let yuv_im := fun p => RGB_to_YUV_pixel (rgb_im p)
  let number_of_observations := ((st.gaussians.headD default).depth_observations 0).2 + 1
  st.gaussians.foldl (fun s g =>
    let r := rgbd_pixel P yuv_im depth_im number_of_observations g
    { gaussians := s.gaussians ++ [r.1]
      mask := fun p => if p = g.index then r.2 else s.mask p })
    { gaussians := [], mask := st.mask }

/-- `RGBD_MoG.__init__` for an H×W frame: one record per pixel (means from
the first frame's YUV conversion and depth, unit variances, uniform weights,
sequential ranking, depth observations (0,1) on the invalid-depth sentinel
and (1,1) otherwise), mask all zeros. -/
def rgbd_init (n H W : ℕ) (rgb_im : Pixel → Color) (depth_im : Pixel → ℚ) :
    RGBDMoGState n :=
  { gaussians := (pixelList H W).map (fun p =>
      let yuv := RGB_to_YUV_pixel (rgb_im p)
      { index := p
        luminance_mean := fun _ => yuv.1
        color_mean := fun _ => yuv.2
        depth_mean := fun _ => depth_im p
        luminance_variance := fun _ => 1
        color_variance := fun _ => 1
        depth_variance := fun _ => 1
        weight := fun _ => (n : ℚ)⁻¹
        ranking := List.finRange n
        depth_observations := fun _ => if depth_im p = 255 then (0, 1) else (1, 1) })
    mask := fun _ => 0 }

/- ===================================================================
   Part 6: moving_detection.py — Fast RGBD MoG
   =================================================================== -/

/-- `np.argmin` over a `Fin`-indexed family: first index attaining the
minimum. -/
def argminFin [NeZero n] (f : Fin n → ℚ) : Fin n :=
  (List.finRange n).foldl (fun best i => if f i < f best then i else best)
    ⟨0, Nat.pos_of_ne_zero (NeZero.ne n)⟩

/-- `np.argmax` over a `Fin`-indexed family: first index attaining the
maximum. -/
def argmaxFin [NeZero n] (f : Fin n → ℚ) : Fin n :=
  (List.finRange n).foldl (fun best i => if f i > f best then i else best)
    ⟨0, Nat.pos_of_ne_zero (NeZero.ne n)⟩

/-- `np.amax` over a `Fin`-indexed family. -/
def amaxFin [NeZero n] (f : Fin n → ℚ) : ℚ :=
  (List.finRange n).foldl (fun acc i => max acc (f i))
    (f ⟨0, Nat.pos_of_ne_zero (NeZero.ne n)⟩)

/-- The per-pixel slice of `Fast_RGBD_MoG`'s flattened state: channel
(Y, U, V, depth) × component arrays for mean/variance/weight, and the
(numerator, count) × component depth-observation array.  Every bulk array
operation of the class acts pixelwise — the single cross-pixel construct,
the early `break` in `set_mask`'s colour loop, fires only when the guarded
updates of every pixel have become no-ops — so the per-pixel projection is
exact for any frame size. -/
structure FastPixelState (n : ℕ) where
  mean : Fin 4 → Fin n → ℚ
  variance : Fin 4 → Fin n → ℚ
  weight : Fin 4 → Fin n → ℚ
  depth_observations : Fin 2 → Fin n → ℚ

/-- The current observation vector `np.c_[current_yuv, current_depth]`. -/
def fastData (yuv : Color) (d : ℚ) : Fin 4 → ℚ :=
  ![yuv.1, yuv.2.1, yuv.2.2, d]

/-- `Fast_RGBD_MoG.sort`: per channel, `np.argmin(weight / variance)` —
note this is the opposite order of `RGBD_MoG`'s
`np.argsort(-weight/variance)` ranking convention. -/
def fast_sort [NeZero n] (st : FastPixelState n) : Fin 4 → Fin n :=
  fun c => argminFin (fun g => st.weight c g / st.variance c g)

/-- `Fast_RGBD_MoG.get_matching_criterion` for one pixel.  `c_c_2` keeps the
source's operator precedence: `current_yuv[:,0,newaxis] - mean[:,0] ** 2`
squares the stored mean, not the difference. -/
def fast_matching (P : RGBDParams) (st : FastPixelState n) (yuv : Color) (d : ℚ) :
    Fin n → ℕ :=
  let beta := P.matching_rate_beta ^ 2
  let d_c_1 : Fin n → Bool := fun g =>
    decide ((d - st.mean 3 g) ^ 2 < beta * st.variance 3 g)
  let d_c_2 : Bool := decide (d = 255)
  let d_c_3 : Fin n → Bool := fun g =>
    decide (st.depth_observations 0 g / st.depth_observations 1 g < P.depth_reliability_ro)
  let depth_matching : Fin n → Bool := fun g => d_c_1 g || d_c_2 || d_c_3 g
  let c_c_1 : Fin n → Bool := fun g =>
    decide (st.mean 0 g > P.luminance_min) && decide (yuv.1 > P.luminance_min)
  let c_c_2 : Fin n → Bool := fun g =>
    decide (yuv.1 - st.mean 0 g ^ 2 < beta * st.variance 0 g)
  let c_c_3 : Fin n → Bool := fun g =>
    decide (((yuv.2.1 - st.mean 1 g) + (yuv.2.2 - st.mean 2 g)) ^ 2 < beta * st.variance 1 g)
  let color_matching : Fin n → ℕ := fun g =>
    if c_c_1 g then (c_c_2 g).toNat + (c_c_3 g).toNat else (c_c_2 g).toNat
  fun g => (depth_matching g).toNat &&& color_matching g

/-- `Fast_RGBD_MoG.update` for one pixel: pixels with any matching component
take the `update_*` arrays (exponential updates on matching components of
every channel, depth-observation update on every component); the rest take
the `new_*` arrays (per-channel replacement at that channel's `argmin` rank;
`new_depth_observations` touches component 0, since the row it extracts from
the rank table carries the channel index, which is 0). -/
def fast_update [NeZero n] (P : RGBDParams) (default_variance : ℚ)
    (st : FastPixelState n) (yuv : Color) (d : ℚ) (matching : Fin n → ℕ)
    (rank : Fin 4 → Fin n) : FastPixelState n :=
  let alfa := P.learning_rate_alfa
  let data := fastData yuv d
  let z : Fin n := ⟨0, Nat.pos_of_ne_zero (NeZero.ne n)⟩
  if (List.finRange n).any (fun g => matching g != 0) then
    { mean := fun c g =>
        if matching g ≠ 0 then (1 - alfa) * st.mean c g + alfa * data c else st.mean c g
      variance := fun c g =>
        if matching g ≠ 0 then (1 - alfa) * st.variance c g + alfa * (data c - st.mean c g) ^ 2
        else st.variance c g
      weight := fun c g =>
        if matching g ≠ 0 then (1 - alfa) * st.weight c g + alfa else st.weight c g
      depth_observations := fun r g =>
        if r = 0 then
          (1 - alfa) * st.depth_observations 0 g + alfa * (if d < 255 then 1 else 0)
        else st.depth_observations 1 g + 1 }
  else
    { mean := fun c g => if g = rank c then data c else st.mean c g
      variance := fun c g => if g = rank c then default_variance else st.variance c g
      weight := fun c g => if g = rank c then alfa else st.weight c g
      depth_observations := fun r g =>
        if r = 0 then
          (if g = z then alfa * (if d < 255 then 1 else 0) else st.depth_observations 0 g)
        else
          (if g = z then st.depth_observations 1 g + 1 else st.depth_observations 1 g) }

/-- One iteration of `set_mask`'s colour-reliability loop for one pixel:
mark the current `argmax` weight slot with -1 and accumulate the weight sum,
both guarded by `weights_sum <= reliability_threshold` (once the sum has
passed the threshold the iteration is a no-op, which is why the early
`break` does not change the result). -/
def fastColorStep [NeZero n] (rt : ℚ) (acc : (Fin n → ℚ) × ℚ) : (Fin n → ℚ) × ℚ :=
  let tw := acc.1
  let wsum := acc.2
  let am := argmaxFin tw
  (fun g => if g = am then (if wsum ≤ rt then -1 else tw g) else tw g,
   if wsum ≤ rt then wsum + amaxFin tw else wsum)

/-- `Fast_RGBD_MoG.set_mask` (the classification step) for one pixel.
`pixel_reliability` is computed by the source but never enters the final
vote, which ORs only the colour- and depth-reliability conditions. -/
def fast_set_mask [NeZero n] (P : RGBDParams) (st : FastPixelState n)
    (yuv : Color) (d : ℚ) (matching : Fin n → ℕ) : ℚ :=
  let condition_1 : Fin n → Bool := fun g =>
    decide (st.depth_observations 0 g / st.depth_observations 1 g > P.depth_reliability_ro)
  let condition_2 : Fin n → Bool := fun g =>
    decide (st.weight 3 g > P.depth_threshold) && decide (st.mean 3 g < 255)
  let condition : Fin n → Bool := fun g => condition_1 g && condition_2 g
  let temp_depth : Fin n → ℚ := fun g => if condition g then st.mean 3 g else 0
  let max_temp_depth := amaxFin temp_depth
  let max_condition : Fin n → Bool := fun g => decide (temp_depth g = max_temp_depth)
  let depth_reliability : Fin n → Bool := fun g => condition g && max_condition g
  let cloop := (List.finRange n).foldl
    (fun acc _ => fastColorStep P.reliability_threshold acc)
    (fun g => st.weight 0 g, (0 : ℚ))
  let color_reliability : Fin n → Bool := fun g => decide (cloop.1 g = -1)
  let _pixel_reliability : Bool := decide (d = 255) && decide (yuv.1 ≤ P.luminance_min)
  let final_condition_1 :=
    (List.finRange n).any fun g => (matching g &&& (color_reliability g).toNat) != 0
  let final_condition_2 :=
    (List.finRange n).any fun g => (matching g &&& (depth_reliability g).toNat) != 0
  let background := final_condition_1 || final_condition_2
  if background then 0 else 255

/-- `Fast_RGBD_MoG.__init__` restricted to one pixel: means from the first
frame's YUV channels and depth, variances at `default_variance`, uniform
weights, depth observations `(0 if depth == 255 else 1, 1)`. -/
def fast_init (n : ℕ) (default_variance : ℚ) (rgb : Color) (d : ℚ) :
    FastPixelState n :=
  let yuv := RGB_to_YUV_pixel rgb
  { mean := fun c _ => fastData yuv d c
    variance := fun _ _ => default_variance
    weight := fun _ _ => (n : ℚ)⁻¹
    depth_observations := fun r _ =>
      if r = 0 then (if d = 255 then 0 else 1) else 1 }

/-- `Fast_RGBD_MoG.get_mask(rgb_im, depth_im)` for one pixel: rank, match,
update, then classify on the updated state. -/
def fast_get_mask [NeZero n] (P : RGBDParams) (default_variance : ℚ)
    (st : FastPixelState n) (rgb : Color) (d : ℚ) : FastPixelState n × ℚ :=
  let yuv := RGB_to_YUV_pixel rgb
  let ranking := fast_sort st
  let matching_criterion := fast_matching P st yuv d
  let st' := fast_update P default_variance st yuv d matching_criterion ranking
  (st', fast_set_mask P st' yuv d matching_criterion)

/- ===================================================================
   Part 7: concrete instances used by counterexamples and witnesses
   =================================================================== -/

/-- A fitting oracle for a single observation: degree-0 fit `[0.]` with zero
covariance (what np.polyfit returns on the 1-point series `t=[0], y=[0]`). -/
def stubFit : ℕ → PolyFit := fun _ => ⟨[RVal.val 0], [0], [[0]]⟩

/-- A fitting oracle whose constant fit `[5.]` misses both points of the
series `t=[0,1], y=[0,10]` badly (error 50). -/
def farFit : ℕ → PolyFit := fun _ => ⟨[RVal.val 5], [0], [[0]]⟩

/-- One stored candidate: constant polynomial 1, standard deviation 1/20. -/
def oneCand : List Candidate :=
  [{ deg := 0
     function_params := [1]
     error := 1
     standard_deviation := [1/20]
     covariance_matrix := [[1]] }]

/-- A two-component, three-channel RGB_MoG pixel record: means 0, unit
variances, unit weights. -/
noncomputable def gC4 : RGBGaussRec 2 3 :=
  { index := (0, 0)
    color_mean := fun _ _ => 0
    color_variance := fun _ => 1
    weight := fun _ => 1
    ranking := List.finRange 2 }

/-- Matching pattern: component 0 matches, component 1 does not. -/
def mC4 : Fin 2 → Bool := ![true, false]

/-- The current colour for the C4 instance: 7 on every channel. -/
noncomputable def cur7 : Fin 3 → ℝ := fun _ => 7

/-- First 1×1 frame for the C1 divergence input: grey (4,4,4). -/
def frame1Rgb : Pixel → Color := fun _ => (4, 4, 4)

/-- Second 1×1 frame for the C1 divergence input: grey (10,10,10). -/
def frame2Rgb : Pixel → Color := fun _ => (10, 10, 10)

/-- Constant depth 1/2 for both C1 frames. -/
def frameDepth : Pixel → ℚ := fun _ => 1/2

/-- The Fast-variant pixel state after the C1 run's matched update: what
`fast_update` produces from the `fast_init` state of the (4,4,4), depth-1/2
frame upon observing (10,10,10), depth 1/2. -/
def stU : FastPixelState 3 :=
  { mean := fun c _ => ![83/20, 128, 128, 1/2] c
    variance := fun c _ => ![15/8, 39/40, 39/40, 39/40] c
    weight := fun _ _ => 7/20
    depth_observations := fun r _ => ![1, 2] r }

/-- A 1×W row blob: the pixels (0, 0) … (0, W-1). -/
def rowBlob (W : ℕ) : Finset Pixel := {0} ×ˢ Finset.range W

/-- The seed mask flagging exactly the row blob. -/
def rowMask (W : ℕ) : Grid := fun i j => if i = 0 ∧ j < W then 1 else 0

/-- Depth 1/2 on the row blob, out-of-range 2 elsewhere. -/
def rowDepth (W : ℕ) : Grid := fun i j => if i = 0 ∧ j < W then 1/2 else 2

/-- A 2×2 seed mask with two flagged pixels, for the termination witness. -/
def m22 : Grid := fun i j =>
  if i = 0 ∧ j = 0 then 1 else if i = 1 ∧ j = 1 then 1 else 0

/-- A 2×2 depth map, nonnegative everywhere. -/
def d22 : Grid := fun i j =>
  if i = 0 ∧ j = 0 then 1/2 else if i = 1 ∧ j = 1 then 3/4 else 2

/- ===================================================================
   Part 7b: blob/region predicates for the region-growing claims
   =================================================================== -/

/-- 8-neighbourhood adjacency (row and column each differ by at most 1;
a pixel is adjacent to itself, matching the 3×3 scan of the source). -/
def adj8 (p q : Pixel) : Prop :=
  ((p.1 : ℤ) - q.1).natAbs ≤ 1 ∧ ((p.2 : ℤ) - q.2).natAbs ≤ 1

/-- One step of a path inside the blob `B`. -/
def blobStep (B : Finset Pixel) (p q : Pixel) : Prop :=
  p ∈ B ∧ q ∈ B ∧ adj8 p q

/-- The blob is 8-connected: any two blob pixels are joined by a path of
adjacent blob pixels. -/
def blobConnected (B : Finset Pixel) : Prop :=
  ∀ p ∈ B, ∀ q ∈ B, Relation.ReflTransGen (blobStep B) p q

/-- `p` would be admitted by the BFS when scanned from `ind`: in bounds,
adjacent to `ind`, in-range depth, and close to `ind`'s depth. -/
def Admissible (depth : Grid) (H W : ℕ) (thr : ℚ) (ind p : Pixel) : Prop :=
  p.1 < H ∧ p.2 < W ∧ adj8 ind p ∧ depth p.1 p.2 < 1 ∧
    |depth p.1 p.2 - depth ind.1 ind.2| < thr

/-- The invariant of the BFS loop: every queued pixel is done, and every
done pixel is either still queued or fully expanded (all its admissible
neighbours are done). -/
def bfsInv (depth : Grid) (H W : ℕ) (thr : ℚ) (s : BFSState) : Prop :=
  (∀ p ∈ s.q, s.done p.1 p.2 = 1) ∧
  (∀ ind : Pixel, s.done ind.1 ind.2 = 1 → ind ∈ s.q ∨
    (∀ p : Pixel, Admissible depth H W thr ind p → s.done p.1 p.2 = 1))

/-- Number of in-frame pixels not yet done (the BFS variant, together with
the queue length). -/
def undoneCard (H W : ℕ) (s : BFSState) : ℕ :=
  ((pixelFinset H W).filter (fun p => ¬ s.done p.1 p.2 = 1)).card

/-- The BFS state `region_growing` builds for the first region it grows:
the root queued alone, its seed cleared, and it alone done and in the mask
(the outer `done` array is still all zero on the first iteration). -/
def blobInit (s0 : Grid) (root : Pixel) : BFSState :=
  { q := [root]
    seeds := gridUpdate s0 root 0
    done := gridUpdate (fun _ _ => 0) root 1
    mask := gridUpdate (fun _ _ => 0) root 1 }

/- ===================================================================
   Part 8: generic fold lemmas
   =================================================================== -/

theorem foldl_prop_preserved {σ α : Type*} (P : σ → Prop) {f : σ → α → σ}
    (hpres : ∀ s a, P s → P (f s a)) :
    ∀ (L : List α) (s : σ), P s → P (L.foldl f s) := by
  intro L
  induction L with
  | nil => intro s hs; simpa using hs
  | cons a L ih => intro s hs; exact ih (f s a) (hpres s a hs)

theorem foldl_prop_of_mem {σ α : Type*} (P : σ → Prop) {f : σ → α → σ} (a₀ : α)
    (hset : ∀ s, P (f s a₀)) (hpres : ∀ s a, P s → P (f s a)) :
    ∀ (L : List α) (s : σ), a₀ ∈ L → P (L.foldl f s) := by
  intro L
  induction L with
  | nil => intro s hs; simp at hs
  | cons a L ih =>
    intro s hs
    rcases List.mem_cons.mp hs with h | h
    · subst h
      exact foldl_prop_preserved P hpres L (f s a₀) (hset s)
    · exact ih (f s a) h

/- ===================================================================
   Part 9: claims C2, C8, C3, C7
   =================================================================== -/

theorem find_functions_mem (fit : ℕ → PolyFit) (t points : List ℚ) (th : ℚ)
    (c : Candidate) :
    c ∈ find_functions fit t points th ↔
      c.deg < maxPoly points.length ∧ fitIsClean fit t c.deg = true ∧
      fitError fit t points c.deg < th ∧ c = candidateOf fit t points c.deg := by
  unfold find_functions
  rw [List.mem_filterMap]
  constructor
  · rintro ⟨i, hi, hf⟩
    rw [List.mem_range] at hi
    by_cases hc : fitIsClean fit t i
    · by_cases he : fitError fit t points i < th
      · rw [if_pos hc, if_pos he, Option.some_inj] at hf
        have hdeg : c.deg = i := by rw [← hf]; rfl
        subst hdeg
        exact ⟨hi, hc, he, hf.symm⟩
      · rw [if_pos hc, if_neg he] at hf; exact absurd hf (by simp)
    · rw [if_neg hc] at hf; exact absurd hf (by simp)
  · rintro ⟨hi, hc, he, hf⟩
    refine ⟨c.deg, List.mem_range.mpr hi, ?_⟩
    rw [if_pos hc, if_pos he]
    exact congrArg some hf.symm

theorem find_functions_degrees_aux (fit : ℕ → PolyFit) (t points : List ℚ)
    (th : ℚ) :
    ∀ l : List ℕ,
      ((l.filterMap (fun i =>
          if fitIsClean fit t i then
            if fitError fit t points i < th then some (candidateOf fit t points i)
            else none
          else none)).map Candidate.deg) =
        l.filter (fun i => fitIsClean fit t i && decide (fitError fit t points i < th)) := by
  intro l
  induction l with
  | nil => rfl
  | cons a l ih =>
    by_cases hc : fitIsClean fit t a
    · by_cases he : fitError fit t points a < th
      · rw [List.filterMap_cons, if_pos hc, if_pos he, List.map_cons, List.filter_cons,
          ih]
        have : (fitIsClean fit t a && decide (fitError fit t points a < th)) = true := by
          rw [hc, decide_eq_true he]; rfl
        rw [this]
        rfl
      · rw [List.filterMap_cons, if_pos hc, if_neg he, List.filter_cons, ih]
        have : (fitIsClean fit t a && decide (fitError fit t points a < th)) = false := by
          rw [decide_eq_false he, Bool.and_false]
        rw [this]
        rfl
    · rw [List.filterMap_cons, if_neg hc, List.filter_cons, ih]
      have : (fitIsClean fit t a && decide (fitError fit t points a < th)) = false := by
        rw [Bool.eq_false_iff.mpr hc, Bool.false_and]
      rw [this]
      rfl

/-- C2 (corrected): `find_functions` fits exactly the degrees
`0 ≤ d < min(n-1, 15)` — the loop is `range(max_poly)`, which EXCLUDES the
degree `min(n-1, 15)` itself — screens out NaN trajectories, and returns as
candidates exactly the remaining degrees whose sum-of-squared-residuals
error is below the threshold, each carrying the fitted coefficients, the
covariance matrix, the externally derived standard deviations, and the
error. -/
theorem C2_find_functions_characterization (fit : ℕ → PolyFit)
    (t points : List ℚ) (th : ℚ) :
    ((find_functions fit t points th).map Candidate.deg =
      (List.range (maxPoly points.length)).filter
        (fun i => fitIsClean fit t i && decide (fitError fit t points i < th))) ∧
    (∀ c, c ∈ find_functions fit t points th ↔
      c.deg < maxPoly points.length ∧ fitIsClean fit t c.deg = true ∧
      fitError fit t points c.deg < th ∧ c = candidateOf fit t points c.deg) :=
  ⟨find_functions_degrees_aux fit t points th (List.range (maxPoly points.length)),
    fun c => find_functions_mem fit t points th c⟩

/-- C2 counterexample: on the one-point series `t=[0], y=[0]` the claim as
stated demands a candidate for degree `min(n-1, 15) = 0` — the degree-0 fit
is NaN-free and its error 0 is below 0.1 — but `find_functions` returns no
candidate at all, because `range(max_poly)` stops before `min(n-1, 15)`. -/
theorem C2_counterexample :
    find_functions stubFit [0] [0] (1/10) = [] ∧
    maxPoly ([(0 : ℚ)] : List ℚ).length = 0 ∧
    fitIsClean stubFit [0] 0 = true ∧
    fitError stubFit [0] [0] 0 < 1/10 := by
  refine ⟨rfl, rfl, rfl, ?_⟩
  norm_num [fitError, fitTrajectory, sum_of_the_squares_of_the_residuals, polyvalR,
    stubFit, RVal.mul, RVal.add, RVal.toQ]

/-- C8 (confirmed): when no fitted degree attains an error below the
threshold, `find_functions` returns the empty candidate collection; the
embedding is a total function, so nothing is raised — the absence of a
candidate is the plain empty result handed back to the caller. -/
theorem C8_no_candidate_empty (fit : ℕ → PolyFit) (t points : List ℚ) (th : ℚ)
    (h : ∀ i, i < maxPoly points.length → fitIsClean fit t i = true →
      th ≤ fitError fit t points i) :
    find_functions fit t points th = [] := by
  unfold find_functions
  rw [List.filterMap_eq_nil_iff]
  intro i hi
  rw [List.mem_range] at hi
  by_cases hc : fitIsClean fit t i
  · rw [if_pos hc, if_neg (not_lt.mpr (h i hi hc))]
  · rw [if_neg hc]

/-- C8 witness: the constant-5 oracle misses `t=[0,1], y=[0,10]` with error
50 on the only fitted degree, and `find_functions` returns the empty
collection. -/
theorem C8_witness : find_functions farFit [0, 1] [0, 10] (1/10) = [] := by
  refine C8_no_candidate_empty farFit [0, 1] [0, 10] (1/10) ?_
  intro i hi _
  have h0 : i = 0 := by
    have h1 : maxPoly ([(0 : ℚ), 10] : List ℚ).length = 1 := rfl
    omega
  subst h0
  have h2 : fitError farFit [0, 1] [0, 10] 0 = 50 := by
    norm_num [fitError, fitTrajectory, sum_of_the_squares_of_the_residuals, polyvalR,
      farFit, RVal.mul, RVal.add, RVal.toQ, List.zipWith]
  rw [h2]
  norm_num

theorem zipWith_add_sub_cancel (p sd : List ℚ) (h : p.length = sd.length) :
    List.zipWith (fun a b => a - b) (List.zipWith (fun a b => a + b) p sd) sd = p := by
  induction p generalizing sd with
  | nil => simp
  | cons a p ih =>
    cases sd with
    | nil => simp at h
    | cons b sd =>
      simp only [List.zipWith_cons_cons, add_sub_cancel_right, List.cons.injEq]
      exact ⟨trivial, ih sd (by simpa using h)⟩

/-- C3 (confirmed): `show_found_functions_with_deviation` leaves the model
state unchanged: the `'up'` call's in-place `f_p += sd` is undone exactly by
the subsequent `'down'` call's `f_p -= sd` (exact arithmetic), so every
stored field of every candidate — `function_params` included — equals its
value from before the call when the function returns. -/
theorem C3_visualization_preserves_state (ff : List Candidate)
    (t points tt real_y : List ℚ)
    (h : ∀ c ∈ ff, c.function_params.length = c.standard_deviation.length) :
    show_found_functions_with_deviation ff t points tt real_y = ff := by
  have h0 : show_found_functions_with_deviation ff t points tt real_y =
      ((ff.map (fun c : Candidate =>
          { c with function_params :=
              deviationParams Deviation.plain c.function_params c.standard_deviation })).map
        (fun c : Candidate =>
          { c with function_params :=
              deviationParams Deviation.up c.function_params c.standard_deviation })).map
        (fun c : Candidate =>
          { c with function_params :=
              deviationParams Deviation.down c.function_params c.standard_deviation }) := rfl
  rw [h0, List.map_map, List.map_map]
  have h2 : ∀ c ∈ ff,
      (((fun c : Candidate =>
          { c with function_params :=
              deviationParams Deviation.down c.function_params c.standard_deviation }) ∘
        (fun c : Candidate =>
          { c with function_params :=
              deviationParams Deviation.up c.function_params c.standard_deviation })) ∘
        (fun c : Candidate =>
          { c with function_params :=
              deviationParams Deviation.plain c.function_params c.standard_deviation })) c
        = c := by
    intro c hc
    have hl := h c hc
    simp only [Function.comp_apply, deviationParams]
    exact congrArg (fun p => { c with function_params := p })
      (zipWith_add_sub_cancel c.function_params c.standard_deviation hl)
  rw [List.map_congr_left h2]
  exact List.map_id' ff

/-- C3 witness: the concrete one-candidate collection is returned exactly
as stored. -/
theorem C3_witness :
    (∀ c ∈ oneCand, c.function_params.length = c.standard_deviation.length) ∧
    show_found_functions_with_deviation oneCand [] [] [0, 1] [] = oneCand := by
  refine ⟨?_, ?_⟩
  · intro c hc
    rw [List.mem_singleton.mp hc]
    rfl
  · exact C3_visualization_preserves_state oneCand [] [] [0, 1] []
      (fun c hc => by rw [List.mem_singleton.mp hc]; rfl)

/-- C7 (corrected): every standard deviation that
`probability_of_being_in_point` obtains from `get_gaussian_params` to build
its grid is floored at the STEP argument — the source passes `step` as
`get_gaussian_params`' third positional parameter `threshold_sd` — so each
obtained deviation is at least `step`, not necessarily 0.2; the 0.2 floor
applies only to calls that leave `threshold_sd` at its default. -/
theorem C7_sd_floor_is_step (ff : List Candidate) (t step : ℚ) :
    ∀ x ∈ (get_gaussian_params ff t step).1.2.1, step ≤ x := by
  intro x hx
  unfold get_gaussian_params at hx
  simp only [List.mem_map] at hx
  obtain ⟨s, _, hs⟩ := hx
  by_cases h : s > step
  · rw [← hs, if_pos h]; exact le_of_lt h
  · rw [← hs, if_neg h]

/-- C7 witness: the floor at the concrete grid step 1/10 holds for the
deviation the layer actually produces there. -/
theorem C7_witness :
    ((1 : ℚ)/10 ∈ (get_gaussian_params oneCand 0 (1/10)).1.2.1) ∧
    ((1 : ℚ)/10 ≤ 1/10) := by
  have hsd : (get_gaussian_params oneCand 0 (1/10)).1.2.1 = [1/10] := by
    norm_num [get_gaussian_params, get_future_points, oneCand, deviationParams, rowHead,
      polyval, List.zipWith, abs_of_nonneg, abs_of_nonpos]
  have hmem : (1 : ℚ)/10 ∈ (get_gaussian_params oneCand 0 (1/10)).1.2.1 := by
    rw [hsd]; exact List.mem_singleton.mpr rfl
  exact ⟨hmem, C7_sd_floor_is_step oneCand 0 (1/10) (1/10) hmem⟩

/-- C7 counterexample: a candidate with worst-case deviation 1/20 under grid
step 1/10 yields the deviation 1/10 from the `get_gaussian_params` call that
`probability_of_being_in_point` makes (third argument = `step`), and 1/10 is
NOT at least 0.2 — the claimed unconditional 0.2 floor does not hold there. -/
theorem C7_counterexample :
    (get_gaussian_params oneCand 0 (1/10)).1.2.1 = [1/10] ∧
    ¬ ((1 : ℚ)/5 ≤ 1/10) := by
  constructor
  · norm_num [get_gaussian_params, get_future_points, oneCand, deviationParams, rowHead,
      polyval, List.zipWith, abs_of_nonneg, abs_of_nonpos]
  · norm_num

/- ===================================================================
   Part 10: claims C4 and C5
   =================================================================== -/

/-- C4 (corrected): in `RGB_MoG.update`, when at least one component of the
pixel matches, every NON-matching component falls to the second branch of
each `np.where`: its weight decays by `(1-α)` as claimed, but its variance
is RESET to `3 + 1 = 4` and its mean is OVERWRITTEN with the current colour
— they are not kept unchanged.  Matching components get the exponentially
updated weight, the variance
`sqrt((1-ρ)·variance² + ρ·squaredError)` with `ρ = α·density`, and the
exponentially updated mean, as claimed. -/
theorem C4_rgb_mog_update_branches (alfa : ℝ) (cur : Fin ch → ℝ)
    (g : RGBGaussRec n ch) (matching : Fin n → Bool) (probability : Fin n → ℝ)
    (hsome : (List.finRange n).any matching = true) :
    ∀ i : Fin n,
      (matching i = false →
        (rgb_mog_update alfa cur g matching probability).weight i = (1 - alfa) * g.weight i ∧
        (rgb_mog_update alfa cur g matching probability).color_variance i = 4 ∧
        ∀ c, (rgb_mog_update alfa cur g matching probability).color_mean i c = cur c) ∧
      (matching i = true →
        (rgb_mog_update alfa cur g matching probability).weight i =
          (1 - alfa) * g.weight i + alfa ∧
        (rgb_mog_update alfa cur g matching probability).color_variance i =
          Real.sqrt ((1 - alfa * probability i) * g.color_variance i ^ 2 +
            alfa * probability i * (∑ j, ∑ c, (cur c - g.color_mean j c) ^ 2)) ∧
        ∀ c, (rgb_mog_update alfa cur g matching probability).color_mean i c =
          (1 - alfa * probability i) * g.color_mean i c + alfa * probability i * cur c) := by
  intro i
  unfold rgb_mog_update
  constructor
  · intro hi
    simp only [hsome, if_true, hi, if_false]
    refine ⟨?_, ?_, fun c => ?_⟩
    · rw [if_neg (by simp)]
    · rw [if_neg (by simp)]
      norm_num
    · rw [if_neg (by simp)]
  · intro hi
    simp only [hsome, if_true, hi]
    refine ⟨?_, ?_, fun c => ?_⟩
    · trivial
    · trivial
    · trivial

/-- C4 counterexample: with component 0 matching and component 1 not, the
non-matching component's variance moves from 1 to 4 and its mean from 0 to
the current colour 7 — both were claimed unchanged. -/
theorem C4_counterexample :
    mC4 1 = false ∧
    (List.finRange 2).any mC4 = true ∧
    (rgb_mog_update (1/40) cur7 gC4 mC4 (fun _ => 0)).color_variance 1 = 4 ∧
    gC4.color_variance 1 = 1 ∧
    ((4 : ℝ) ≠ 1) ∧
    (rgb_mog_update (1/40) cur7 gC4 mC4 (fun _ => 0)).color_mean 1 0 = 7 ∧
    gC4.color_mean 1 0 = 0 ∧
    ((7 : ℝ) ≠ 0) := by
  have hm1 : mC4 1 = false := rfl
  have hany : (List.finRange 2).any mC4 = true := rfl
  have h := C4_rgb_mog_update_branches (1/40) cur7 gC4 mC4
    (fun _ => 0) hany 1
  obtain ⟨hw, hv, hmean⟩ := h.1 hm1
  exact ⟨hm1, hany, hv, rfl, by norm_num, by rw [hmean 0]; rfl, rfl, by norm_num⟩

/-- C4 witness: the branch description instantiated at the concrete pixel
record, matching pattern and probability vector. -/
theorem C4_witness :
    ((List.finRange 2).any mC4 = true) ∧
    (mC4 1 = false →
      (rgb_mog_update (1/40) cur7 gC4 mC4 (fun _ => 0)).weight 1 = (1 - 1/40) * gC4.weight 1 ∧
      (rgb_mog_update (1/40) cur7 gC4 mC4 (fun _ => 0)).color_variance 1 = 4 ∧
      ∀ c, (rgb_mog_update (1/40) cur7 gC4 mC4 (fun _ => 0)).color_mean 1 c = cur7 c) := by
  exact ⟨rfl, fun h1 =>
    (C4_rgb_mog_update_branches (1/40) cur7 gC4 mC4
      (fun _ => 0) rfl 1).1 h1⟩

/-- The Euclidean distance between a point and the centre. -/
noncomputable def euclidDist (p c : Vec3) : ℝ :=
  Real.sqrt ((p.1 - c.1) ^ 2 + (p.2.1 - c.2.1) ^ 2 + (p.2.2 - c.2.2) ^ 2)

theorem vecNorm_absDiff (p c : Vec3) : vecNorm (absDiff p c) = euclidDist p c := by
  unfold vecNorm absDiff euclidDist
  rw [sq_abs, sq_abs, sq_abs]

/-- C5 (corrected): `find_points_in_radius` returns exactly the indices of
the points whose Euclidean distance to the centre is below the radius (that
part of the claim holds), but the radius vector returned with each selected
point is `np.abs(point - center)` — the componentwise ABSOLUTE difference —
not `point - center`. -/
theorem C5_find_points_in_radius_amended (points : List Vec3) (center : Vec3)
    (radius : ℝ) :
    (∀ i, i ∈ (find_points_in_radius points center radius).1 ↔
      i < points.length ∧ euclidDist (points.getD i (0, 0, 0)) center < radius) ∧
    (find_points_in_radius points center radius).2 =
      (points.filter (fun p => decide (euclidDist p center < radius))).map
        (fun p => absDiff p center) := by
  constructor
  · intro i
    unfold find_points_in_radius
    simp only [List.mem_filter, List.mem_range, decide_eq_true_eq]
    have e1 : ∀ hi : i < points.length,
        (points.map (fun p => absDiff p center)).getD i (0, 0, 0) =
          absDiff (points.getD i (0, 0, 0)) center := by
      intro hi
      rw [List.getD_eq_getElem _ _ (by simpa using hi), List.getElem_map,
        List.getD_eq_getElem _ _ hi]
    constructor
    · rintro ⟨hi, hd⟩
      rw [e1 hi, vecNorm_absDiff] at hd
      exact ⟨hi, hd⟩
    · rintro ⟨hi, hd⟩
      refine ⟨hi, ?_⟩
      rw [e1 hi, vecNorm_absDiff]
      exact hd
  · unfold find_points_in_radius
    dsimp only
    rw [List.filter_map]
    refine congrArg (List.map (fun p => absDiff p center)) ?_
    refine List.filter_congr ?_
    intro p _
    simp only [Function.comp_apply, vecNorm_absDiff]

/-- C5 counterexample: for the single point (0,0,0) and centre (1,0,0) with
radius 2, the point is selected, and the returned radius vector is
(1, 0, 0) = |point - center|, which differs from
point - center = (-1, 0, 0). -/
theorem C5_counterexample :
    (find_points_in_radius [((0 : ℝ), 0, 0)] (1, 0, 0) 2).1 = [0] ∧
    (find_points_in_radius [((0 : ℝ), 0, 0)] (1, 0, 0) 2).2 = [(1, 0, 0)] ∧
    (((0 : ℝ) - 1, (0 : ℝ) - 0, (0 : ℝ) - 0) ≠ ((1 : ℝ), 0, 0)) := by
  have habs : absDiff ((0 : ℝ), 0, 0) (1, 0, 0) = (1, 0, 0) := by
    unfold absDiff
    norm_num
  have hdist : vecNorm (absDiff ((0 : ℝ), 0, 0) (1, 0, 0)) < 2 := by
    rw [habs]
    unfold vecNorm
    rw [show ((1 : ℝ)) ^ 2 + 0 ^ 2 + 0 ^ 2 = 1 by norm_num, Real.sqrt_one]
    norm_num
  refine ⟨?_, ?_, ?_⟩
  · unfold find_points_in_radius
    dsimp only
    rw [show List.range ([((0 : ℝ), 0, 0)] : List Vec3).length = [0] from rfl]
    rw [List.filter_cons, List.filter_nil, List.map_cons, List.map_nil]
    rw [decide_eq_true
      (show vecNorm (([absDiff ((0 : ℝ), 0, 0) (1, 0, 0)]).getD 0 (0, 0, 0)) < 2 from hdist)]
    rfl
  · unfold find_points_in_radius
    dsimp only
    rw [List.map_cons, List.map_nil, List.filter_cons]
    rw [decide_eq_true hdist, List.filter_nil, habs]
    rfl
  · intro hcontra
    have h1 : ((0 : ℝ) - 1) = 1 := congrArg Prod.fst hcontra
    norm_num at h1

/- ===================================================================
   Part 11: claim C1 — the two RGBD MoG implementations diverge
   =================================================================== -/

theorem c1_fast_matching_all_one :
    ∀ g : Fin 3, fast_matching rgbdDefaults (fast_init 3 1 (4, 4, 4) (1/2))
      (10, 128, 128) (1/2) g = 1 := by
  intro g
  norm_num [fast_matching, fast_init, fastData, rgbdDefaults, RGB_to_YUV_pixel,
    Matrix.cons_val_zero, Matrix.cons_val_one, Matrix.head_cons, Matrix.cons_val_succ]

theorem c1_fast_update_eq :
    fast_update rgbdDefaults 1 (fast_init 3 1 (4, 4, 4) (1/2)) (10, 128, 128) (1/2)
      (fast_matching rgbdDefaults (fast_init 3 1 (4, 4, 4) (1/2)) (10, 128, 128) (1/2))
      (fast_sort (fast_init 3 1 (4, 4, 4) (1/2))) = stU := by
  unfold fast_update
  rw [if_pos]
  · unfold stU
    congr 1
    · funext c g
      rw [if_pos (by rw [c1_fast_matching_all_one g]; decide)]
      fin_cases c <;>
        norm_num [fast_init, fastData, rgbdDefaults, RGB_to_YUV_pixel, Matrix.cons_val_zero,
          Matrix.cons_val_one, Matrix.head_cons, Matrix.cons_val_succ]
    · funext c g
      rw [if_pos (by rw [c1_fast_matching_all_one g]; decide)]
      fin_cases c <;>
        norm_num [fast_init, fastData, rgbdDefaults, RGB_to_YUV_pixel, Matrix.cons_val_zero,
          Matrix.cons_val_one, Matrix.head_cons, Matrix.cons_val_succ]
    · funext c g
      rw [if_pos (by rw [c1_fast_matching_all_one g]; decide)]
      norm_num [fast_init, rgbdDefaults]
    · funext r g
      fin_cases r <;> norm_num [fast_init, rgbdDefaults]
  · rw [List.any_eq_true]
    exact ⟨0, by simp, by rw [c1_fast_matching_all_one 0]; decide⟩

theorem c1_fast_set_mask_zero :
    fast_set_mask rgbdDefaults stU (10, 128, 128) (1/2)
      (fast_matching rgbdDefaults (fast_init 3 1 (4, 4, 4) (1/2)) (10, 128, 128) (1/2)) = 0 := by
  unfold fast_set_mask
  rw [if_pos]
  rw [Bool.or_eq_true]
  right
  rw [List.any_eq_true]
  refine ⟨0, by simp, ?_⟩
  rw [c1_fast_matching_all_one 0]
  norm_num [stU, Matrix.cons_val_zero, Matrix.cons_val_one, Matrix.head_cons,
    Matrix.cons_val_succ, amaxFin, rgbdDefaults, List.finRange]

theorem c1_fast_mask :
    (fast_get_mask rgbdDefaults 1
      (fast_init 3 1 (4, 4, 4) (1/2)) (10, 10, 10) (1/2)).2 = 0 := by
  have hyuv : RGB_to_YUV_pixel (10, 10, 10) = (10, 128, 128) := by
    norm_num [RGB_to_YUV_pixel]
  unfold fast_get_mask
  rw [hyuv]
  dsimp only
  rw [c1_fast_update_eq, c1_fast_set_mask_zero]

theorem c1_rgbd_mask :
    (rgbd_set_mask rgbdDefaults frame2Rgb frameDepth
      (rgbd_init 3 1 1 frame1Rgb frameDepth)).mask (0, 0) = 255 := by
  norm_num [rgbd_set_mask, rgbd_init, rgbd_pixel, rgbd_set_ranking, rgbd_matching,
    rgbd_update, rgbd_pixel_mask, rgbdDefaults, frame1Rgb, frame2Rgb, frameDepth,
    RGB_to_YUV_pixel, pixelList, argsortDesc, insertByKeyDesc, List.finRange,
    List.ofFn, crWhile, crFuel, flagSet, List.foldl, List.range, List.range.loop,
    Fin.isValue]
  rfl

/-- C1 (code_bug): the Fast variant does NOT reproduce `RGBD_MoG`'s
semantics.  Both instances are constructed from the same 1×1 first frame
(RGB (4,4,4), depth 1/2) with the source's default parameters — no random
draw is ever consumed by either class — and on the very next frame
(RGB (10,10,10), depth 1/2) `RGBD_MoG.set_mask` marks the pixel foreground
(255) while `Fast_RGBD_MoG.get_mask` marks it background (0).  The first
divergence on this input is the luminance matching test: `RGBD_MoG` tests
`(Y - mean)² < β²·var` (fails: 36 ≥ 6.25) while the Fast variant's
`current_yuv[:,0,newaxis] - self.__mean[:,0] ** 2 < beta * variance`
squares only the stored mean (passes: 10 - 16 = -6 < 6.25). -/
theorem C1_implementations_diverge :
    (rgbd_set_mask rgbdDefaults frame2Rgb frameDepth
      (rgbd_init 3 1 1 frame1Rgb frameDepth)).mask (0, 0) = 255 ∧
    (fast_get_mask rgbdDefaults 1
      (fast_init 3 1 (4, 4, 4) (1/2)) (10, 10, 10) (1/2)).2 = 0 ∧
    frame1Rgb (0, 0) = (4, 4, 4) ∧ frame2Rgb (0, 0) = (10, 10, 10) ∧
    frameDepth (0, 0) = 1/2 ∧ ((255 : ℚ) ≠ 0) :=
  ⟨c1_rgbd_mask, c1_fast_mask, rfl, rfl, rfl, by norm_num⟩

/- ===================================================================
   Part 12: claim C9 — mask value conventions
   =================================================================== -/

theorem vibe_set_pixel_mask_eq (r : ℚ) (lam : ℕ) (draws : ViBEDraws H W S)
    (st : ViBEState H W S) (p : Fin H × Fin W) :
    ∃ v, (vibe_set_pixel r lam draws st p).mask = maskWrite st.mask p v ∧
      (v = 0 ∨ v = 1) := by
  unfold vibe_set_pixel
  by_cases h : vibe_in_background r lam (st.current_rgb p.1 p.2) (st.background p.1 p.2)
  · refine ⟨0, ?_, Or.inl rfl⟩
    rw [if_pos h]
    dsimp only
    split_ifs <;> rfl
  · exact ⟨1, by rw [if_neg h], Or.inr rfl⟩

theorem devb_set_pixel_mask_eq (r : ℚ) (lam : ℕ) (theta : ℚ)
    (draws : ViBEDraws H W S) (st : DEVBState H W S) (p : Fin H × Fin W) :
    ∃ v, (devb_set_pixel r lam theta draws st p).mask = maskWrite st.mask p v ∧
      (v = 0 ∨ v = 1) := by
  unfold devb_set_pixel
  by_cases h : vibe_in_background r lam (st.current_rgb p.1 p.2) (st.background p.1 p.2)
  · refine ⟨0, ?_, Or.inl rfl⟩
    rw [if_pos h]
    dsimp only
    split_ifs <;> rfl
  · rw [if_neg h]
    by_cases h2 : st.depth_background p.1 p.2 - st.current_depth p.1 p.2 > theta
    · refine ⟨1, ?_, Or.inr rfl⟩
      rw [if_pos h2]
      dsimp only
      split_ifs <;> rfl
    · exact ⟨0, by rw [if_neg h2], Or.inl rfl⟩

theorem maskWrite_val (m : Fin H → Fin W → ℚ) (p : Fin H × Fin W) (v : ℚ)
    (i : Fin H) (j : Fin W) :
    maskWrite m p v i j = v ∨ maskWrite m p v i j = m i j := by
  unfold maskWrite
  split_ifs <;> [exact Or.inl rfl; exact Or.inr rfl]

theorem mem_finPixelList (i : Fin H) (j : Fin W) : (i, j) ∈ finPixelList H W := by
  unfold finPixelList
  rw [List.mem_flatMap]
  exact ⟨i, List.mem_finRange i, List.mem_map.mpr ⟨j, List.mem_finRange j, rfl⟩⟩

theorem vibe_set_mask_mask_01 (r : ℚ) (lam : ℕ) (draws : ViBEDraws H W S)
    (st : ViBEState H W S) (i : Fin H) (j : Fin W) :
    (vibe_set_mask r lam draws st).mask i j = 0 ∨
      (vibe_set_mask r lam draws st).mask i j = 1 := by
  refine foldl_prop_of_mem
    (fun s : ViBEState H W S => s.mask i j = 0 ∨ s.mask i j = 1)
    (((i, j) : Fin H × Fin W)) ?_ ?_ (finPixelList H W) st (mem_finPixelList i j)
  · intro s
    obtain ⟨v, hm, hv⟩ := vibe_set_pixel_mask_eq r lam draws s (i, j)
    rw [hm]
    unfold maskWrite
    rw [if_pos ⟨rfl, rfl⟩]
    exact hv
  · intro s a hs
    obtain ⟨v, hm, hv⟩ := vibe_set_pixel_mask_eq r lam draws s a
    rw [hm]
    rcases maskWrite_val s.mask a v i j with h | h
    · rw [h]; exact hv
    · rw [h]; exact hs

theorem devb_set_mask_mask_01 (r : ℚ) (lam : ℕ) (theta : ℚ)
    (draws : ViBEDraws H W S) (st : DEVBState H W S) (i : Fin H) (j : Fin W) :
    (devb_set_mask r lam theta draws st).mask i j = 0 ∨
      (devb_set_mask r lam theta draws st).mask i j = 1 := by
  refine foldl_prop_of_mem
    (fun s : DEVBState H W S => s.mask i j = 0 ∨ s.mask i j = 1)
    (((i, j) : Fin H × Fin W)) ?_ ?_ (finPixelList H W) st (mem_finPixelList i j)
  · intro s
    obtain ⟨v, hm, hv⟩ := devb_set_pixel_mask_eq r lam theta draws s (i, j)
    rw [hm]
    unfold maskWrite
    rw [if_pos ⟨rfl, rfl⟩]
    exact hv
  · intro s a hs
    obtain ⟨v, hm, hv⟩ := devb_set_pixel_mask_eq r lam theta draws s a
    rw [hm]
    rcases maskWrite_val s.mask a v i j with h | h
    · rw [h]; exact hv
    · rw [h]; exact hs

theorem rgb_mog_set_mask_pres (alfa : ℝ) (rgb_im : Pixel → Fin ch → ℝ)
    (st : RGBMoGState n ch) (p : Pixel)
    (hst : st.mask p = 0 ∨ st.mask p = 255) :
    (rgb_mog_set_mask alfa rgb_im st).mask p = 0 ∨
      (rgb_mog_set_mask alfa rgb_im st).mask p = 255 := by
  unfold rgb_mog_set_mask
  refine foldl_prop_preserved
    (fun s : RGBMoGState n ch => s.mask p = 0 ∨ s.mask p = 255)
    ?_ st.gaussians _ hst
  intro s g hs
  dsimp only
  by_cases h : p = g.index
  · rw [if_pos h]
    unfold rgb_mog_pixel rgb_mog_make_mask
    dsimp only
    split_ifs <;> [exact Or.inl rfl; exact Or.inr rfl]
  · rw [if_neg h]
    exact hs

theorem rgbd_set_mask_pres (P : RGBDParams) (rgb_im : Pixel → Color)
    (depth_im : Pixel → ℚ) (st : RGBDMoGState (m + 1)) (p : Pixel)
    (hst : st.mask p = 0 ∨ st.mask p = 255) :
    (rgbd_set_mask P rgb_im depth_im st).mask p = 0 ∨
      (rgbd_set_mask P rgb_im depth_im st).mask p = 255 := by
  unfold rgbd_set_mask
  refine foldl_prop_preserved
    (fun s : RGBDMoGState (m + 1) => s.mask p = 0 ∨ s.mask p = 255)
    ?_ st.gaussians _ hst
  intro s g hs
  dsimp only
  by_cases h : p = g.index
  · rw [if_pos h]
    unfold rgbd_pixel rgbd_pixel_mask
    dsimp only
    split_ifs <;> [exact Or.inl rfl; exact Or.inr rfl]
  · rw [if_neg h]
    exact hs

/-- C9 (confirmed): every `set_mask` call preserves the per-detector mask
value convention.  ViBE's and DEVB's `set_pixel` write every pixel of the
frame with 0 or 1, for any prior state and any random draws; RGB_MoG's and
RGBD_MoG's classification writes 0 or 255 at each stored record's pixel,
and entries never written stay at the construction-time 0 — so after any
sequence of classification calls on a constructed instance every mask entry
is in {0, 255}.  No embedded operation writes any other value. -/
theorem C9_mask_value_conventions :
    (∀ (H W S : ℕ) (r : ℚ) (lam : ℕ) (draws : ViBEDraws H W S)
        (st : ViBEState H W S) (i : Fin H) (j : Fin W),
      (vibe_set_mask r lam draws st).mask i j = 0 ∨
        (vibe_set_mask r lam draws st).mask i j = 1) ∧
    (∀ (H W S : ℕ) (r : ℚ) (lam : ℕ) (theta : ℚ) (draws : ViBEDraws H W S)
        (st : DEVBState H W S) (i : Fin H) (j : Fin W),
      (devb_set_mask r lam theta draws st).mask i j = 0 ∨
        (devb_set_mask r lam theta draws st).mask i j = 1) ∧
    (∀ (n ch H W : ℕ) (alfa : ℝ) (rgb0 : Pixel → Fin ch → ℝ)
        (frames : List (Pixel → Fin ch → ℝ)) (p : Pixel),
      (frames.foldl (fun s im => rgb_mog_set_mask alfa im s)
          (rgb_mog_init n ch H W rgb0)).mask p = 0 ∨
        (frames.foldl (fun s im => rgb_mog_set_mask alfa im s)
          (rgb_mog_init n ch H W rgb0)).mask p = 255) ∧
    (∀ (m H W : ℕ) (P : RGBDParams) (rgb0 : Pixel → Color) (d0 : Pixel → ℚ)
        (frames : List ((Pixel → Color) × (Pixel → ℚ))) (p : Pixel),
      (frames.foldl (fun s fr => rgbd_set_mask P fr.1 fr.2 s)
          (rgbd_init (m + 1) H W rgb0 d0)).mask p = 0 ∨
        (frames.foldl (fun s fr => rgbd_set_mask P fr.1 fr.2 s)
          (rgbd_init (m + 1) H W rgb0 d0)).mask p = 255) := by
  refine ⟨?_, ?_, ?_, ?_⟩
  · intro H W S r lam draws st i j
    exact vibe_set_mask_mask_01 r lam draws st i j
  · intro H W S r lam theta draws st i j
    exact devb_set_mask_mask_01 r lam theta draws st i j
  · intro n ch H W alfa rgb0 frames p
    refine foldl_prop_preserved
      (fun s : RGBMoGState n ch => s.mask p = 0 ∨ s.mask p = 255)
      ?_ frames _ (Or.inl rfl)
    intro s im hs
    exact rgb_mog_set_mask_pres alfa im s p hs
  · intro m H W P rgb0 d0 frames p
    refine foldl_prop_preserved
      (fun s : RGBDMoGState (m + 1) => s.mask p = 0 ∨ s.mask p = 255)
      ?_ frames _ (Or.inl rfl)
    intro s fr hs
    exact rgbd_set_mask_pres P fr.1 fr.2 s p hs

/- ===================================================================
   Part 13: region growing — basic lemmas and claim C10
   =================================================================== -/

theorem mem_pixelList {H W : ℕ} (p : Pixel) :
    p ∈ pixelList H W ↔ p.1 < H ∧ p.2 < W := by
  unfold pixelList
  rw [List.mem_flatMap]
  constructor
  · rintro ⟨i, hi, hp⟩
    rw [List.mem_map] at hp
    obtain ⟨j, hj, rfl⟩ := hp
    exact ⟨List.mem_range.mp hi, List.mem_range.mp hj⟩
  · rintro ⟨h1, h2⟩
    exact ⟨p.1, List.mem_range.mpr h1, List.mem_map.mpr ⟨p.2, List.mem_range.mpr h2, rfl⟩⟩

theorem mem_pixelFinset {H W : ℕ} (p : Pixel) :
    p ∈ pixelFinset H W ↔ p.1 < H ∧ p.2 < W := by
  unfold pixelFinset
  rw [Finset.mem_product, Finset.mem_range, Finset.mem_range]

theorem list_sum_range (f : ℕ → ℚ) : ∀ n : ℕ,
    ((List.range n).map f).sum = ∑ i in Finset.range n, f i := by
  intro n
  induction n with
  | zero => rfl
  | succ n ih =>
    rw [List.range_succ, List.map_append, List.sum_append, Finset.sum_range_succ, ih]
    simp

theorem gridSum_eq_sum (H W : ℕ) (g : Grid) :
    gridSum H W g = ∑ p in pixelFinset H W, g p.1 p.2 := by
  unfold gridSum pixelFinset pixelList
  rw [Finset.sum_product]
  induction H with
  | zero => rfl
  | succ H ih =>
    rw [List.range_succ, List.flatMap_append, List.map_append, List.sum_append,
      Finset.sum_range_succ, ← ih]
    congr 1
    rw [List.flatMap_cons, List.flatMap_nil, List.append_nil, List.map_map]
    exact list_sum_range (fun j => g H j) W

theorem foldl_argmax_spec (g : Grid) (l : List Pixel) (init : Pixel) :
    ((l.foldl (fun best p => if g p.1 p.2 > g best.1 best.2 then p else best) init) = init ∨
      (l.foldl (fun best p => if g p.1 p.2 > g best.1 best.2 then p else best) init) ∈ l) ∧
    g init.1 init.2 ≤
      g (l.foldl (fun best p => if g p.1 p.2 > g best.1 best.2 then p else best) init).1
        (l.foldl (fun best p => if g p.1 p.2 > g best.1 best.2 then p else best) init).2 ∧
    ∀ p ∈ l, g p.1 p.2 ≤
      g (l.foldl (fun best p => if g p.1 p.2 > g best.1 best.2 then p else best) init).1
        (l.foldl (fun best p => if g p.1 p.2 > g best.1 best.2 then p else best) init).2 := by
  induction l generalizing init with
  | nil => exact ⟨Or.inl rfl, le_refl _, by simp⟩
  | cons a l ih =>
    simp only [List.foldl_cons]
    obtain ⟨hmem, hinit, hall⟩ := ih (if g a.1 a.2 > g init.1 init.2 then a else init)
    have hstep : g init.1 init.2 ≤
        g (if g a.1 a.2 > g init.1 init.2 then a else init).1
          (if g a.1 a.2 > g init.1 init.2 then a else init).2 := by
      split_ifs with h
      · exact le_of_lt h
      · exact le_refl _
    have hstepa : g a.1 a.2 ≤
        g (if g a.1 a.2 > g init.1 init.2 then a else init).1
          (if g a.1 a.2 > g init.1 init.2 then a else init).2 := by
      split_ifs with h
      · exact le_refl _
      · exact le_of_not_lt h
    refine ⟨?_, le_trans hstep hinit, ?_⟩
    · rcases hmem with h | h
      · rw [h]
        split_ifs with h2
        · exact Or.inr (List.mem_cons_self a l)
        · exact Or.inl rfl
      · exact Or.inr (List.mem_cons_of_mem a h)
    · intro p hp
      rcases List.mem_cons.mp hp with h | h
      · subst h
        exact le_trans hstepa hinit
      · exact hall p h

theorem argmaxPixel_spec (H W : ℕ) (g : Grid) (hne : pixelList H W ≠ []) :
    argmaxPixel H W g ∈ pixelList H W ∧
    ∀ p ∈ pixelList H W, g p.1 p.2 ≤ g (argmaxPixel H W g).1 (argmaxPixel H W g).2 := by
  unfold argmaxPixel
  obtain ⟨a, l, hl⟩ := List.exists_cons_of_ne_nil hne
  rw [hl]
  simp only [List.headD_cons]
  obtain ⟨hmem, _, hall⟩ := foldl_argmax_spec g (a :: l) a
  constructor
  · rcases hmem with h | h
    · rw [h]
      exact List.mem_cons_self a l
    · exact h
  · intro p hp
    exact hall p hp

theorem gridSum_pos_mem (H W : ℕ) (g : Grid)
    (hnn : ∀ p ∈ pixelFinset H W, 0 ≤ g p.1 p.2)
    (hsum : gridSum H W g ≠ 0) :
    ∃ p ∈ pixelFinset H W, 0 < g p.1 p.2 := by
  rw [gridSum_eq_sum] at hsum
  by_contra hcon
  push_neg at hcon
  apply hsum
  refine Finset.sum_eq_zero ?_
  intro p hp
  exact le_antisymm (hcon p hp) (hnn p hp)

theorem admitCell_seeds (depth : Grid) (H W : ℕ) (thr : ℚ) (ind : Pixel)
    (s : BFSState) (c : ℤ × ℤ) (i j : ℕ) :
    (admitCell depth H W thr ind s c).seeds i j = s.seeds i j ∨
      (admitCell depth H W thr ind s c).seeds i j = 0 := by
  unfold admitCell
  by_cases h1 : cellInBounds H W c
  · rw [if_pos h1]
    dsimp only
    by_cases h2 : s.done c.1.toNat c.2.toNat = 1
    · rw [if_pos h2]; exact Or.inl rfl
    · rw [if_neg h2]
      by_cases h3 : 1 ≤ depth c.1.toNat c.2.toNat
      · rw [if_pos h3]; exact Or.inl rfl
      · rw [if_neg h3]
        by_cases h4 : |depth c.1.toNat c.2.toNat - depth ind.1 ind.2| < thr
        · rw [if_pos h4]
          dsimp only
          unfold gridUpdate
          by_cases h5 : i = c.1.toNat ∧ j = c.2.toNat
          · rw [if_pos h5]; exact Or.inr rfl
          · rw [if_neg h5]; exact Or.inl rfl
        · rw [if_neg h4]; exact Or.inl rfl
  · rw [if_neg h1]; exact Or.inl rfl

theorem admitScan_seeds (depth : Grid) (H W : ℕ) (thr : ℚ) (ind : Pixel)
    (st : BFSState) (i j : ℕ) :
    (admitScan depth H W thr ind st).seeds i j = st.seeds i j ∨
      (admitScan depth H W thr ind st).seeds i j = 0 := by
  unfold admitScan
  refine foldl_prop_preserved
    (fun s : BFSState => s.seeds i j = st.seeds i j ∨ s.seeds i j = 0)
    ?_ (neighborCells ind) st (Or.inl rfl)
  intro s c hs
  rcases admitCell_seeds depth H W thr ind s c i j with h | h
  · rw [h]; exact hs
  · rw [h]; exact Or.inr rfl

theorem bfsRun_seeds (depth : Grid) (H W : ℕ) (thr : ℚ) :
    ∀ (fuel : ℕ) (st : BFSState) (i j : ℕ),
      (bfsRun depth H W thr fuel st).seeds i j = st.seeds i j ∨
        (bfsRun depth H W thr fuel st).seeds i j = 0 := by
  intro fuel
  induction fuel with
  | zero => intro st i j; exact Or.inl rfl
  | succ fuel ih =>
    intro st i j
    unfold bfsRun
    match hq : st.q with
    | [] => exact Or.inl rfl
    | ind :: rest =>
      rcases ih (admitScan depth H W thr ind { st with q := rest }) i j with h | h
      · rw [h]
        exact admitScan_seeds depth H W thr ind { st with q := rest } i j
      · rw [h]; exact Or.inr rfl

theorem rgStep_seeds (depth : Grid) (H W : ℕ) (thr : ℚ) (sig : ℕ) (st : RGState)
    (i j : ℕ) :
    (rgStep depth H W thr sig st).seeds i j = st.seeds i j ∨
      (rgStep depth H W thr sig st).seeds i j = 0 := by
  unfold rgStep
  dsimp only
  rcases bfsRun_seeds depth H W thr (H * W + 1)
      { q := [argmaxPixel H W st.seeds]
        seeds := gridUpdate st.seeds (argmaxPixel H W st.seeds) 0
        done := gridUpdate st.done (argmaxPixel H W st.seeds) 1
        mask := gridUpdate (fun _ _ => 0) (argmaxPixel H W st.seeds) 1 } i j with h | h
  · rw [h]
    unfold gridUpdate
    dsimp only
    split_ifs
    · exact Or.inr rfl
    · exact Or.inl rfl
  · rw [h]; exact Or.inr rfl

theorem rgStep_root_seed_zero (depth : Grid) (H W : ℕ) (thr : ℚ) (sig : ℕ)
    (st : RGState) :
    (rgStep depth H W thr sig st).seeds (argmaxPixel H W st.seeds).1
      (argmaxPixel H W st.seeds).2 = 0 := by
  unfold rgStep
  dsimp only
  set root := argmaxPixel H W st.seeds with hroot
  have hz : (gridUpdate st.seeds root 0) root.1 root.2 = 0 := by
    unfold gridUpdate
    rw [if_pos ⟨rfl, rfl⟩]
  have hzero : ∀ (fuel : ℕ) (s : BFSState), s.seeds root.1 root.2 = 0 →
      (bfsRun depth H W thr fuel s).seeds root.1 root.2 = 0 := by
    intro fuel
    induction fuel with
    | zero => intro s hs; exact hs
    | succ fuel ih =>
      intro s hs
      unfold bfsRun
      match hq : s.q with
      | [] => exact hs
      | ind :: rest =>
        refine ih _ ?_
        rcases admitScan_seeds depth H W thr ind { s with q := rest } root.1 root.2 with h | h
        · rw [h]; exact hs
        · exact h
  exact hzero (H * W + 1) _ hz

theorem rgStep_posSet_ssubset (depth : Grid) (H W : ℕ) (thr : ℚ) (sig : ℕ)
    (st : RGState)
    (hnn : ∀ p ∈ pixelFinset H W, 0 ≤ st.seeds p.1 p.2)
    (hsum : gridSum H W st.seeds ≠ 0) :
    posSet H W (rgStep depth H W thr sig st).seeds ⊂ posSet H W st.seeds := by
  obtain ⟨p0, hp0mem, hp0pos⟩ := gridSum_pos_mem H W st.seeds hnn hsum
  have hp0list : p0 ∈ pixelList H W :=
    (mem_pixelList p0).mpr ((mem_pixelFinset p0).mp hp0mem)
  have hne : pixelList H W ≠ [] := List.ne_nil_of_mem hp0list
  obtain ⟨hrootmem, hrootmax⟩ := argmaxPixel_spec H W st.seeds hne
  have hrootpos : 0 < st.seeds (argmaxPixel H W st.seeds).1 (argmaxPixel H W st.seeds).2 :=
    lt_of_lt_of_le hp0pos (hrootmax p0 hp0list)
  constructor
  · intro p hp
    unfold posSet at hp ⊢
    rw [Finset.mem_filter] at hp ⊢
    refine ⟨hp.1, ?_⟩
    rcases rgStep_seeds depth H W thr sig st p.1 p.2 with h | h
    · rw [h] at hp; exact hp.2
    · exact absurd h hp.2
  · intro hsub
    have hrootin : argmaxPixel H W st.seeds ∈ posSet H W st.seeds := by
      unfold posSet
      rw [Finset.mem_filter]
      exact ⟨(mem_pixelFinset _).mpr ((mem_pixelList _).mp hrootmem), ne_of_gt hrootpos⟩
    have := hsub hrootin
    unfold posSet at this
    rw [Finset.mem_filter] at this
    exact this.2 (rgStep_root_seed_zero depth H W thr sig st)

theorem rgLoop_sum_zero (depth : Grid) (H W : ℕ) (thr : ℚ) (sig : ℕ) :
    ∀ (fuel : ℕ) (st : RGState),
      (∀ p ∈ pixelFinset H W, 0 ≤ st.seeds p.1 p.2) →
      (posSet H W st.seeds).card ≤ fuel →
      gridSum H W ((rgLoop depth H W thr sig fuel st).seeds) = 0 := by
  intro fuel
  induction fuel with
  | zero =>
    intro st hnn hcard
    have hempty : posSet H W st.seeds = ∅ :=
      Finset.card_eq_zero.mp (Nat.le_zero.mp hcard)
    have hz : ∀ p ∈ pixelFinset H W, st.seeds p.1 p.2 = 0 := by
      intro p hp
      by_contra hcon
      have : p ∈ posSet H W st.seeds := by
        unfold posSet
        rw [Finset.mem_filter]
        exact ⟨hp, hcon⟩
      rw [hempty] at this
      exact absurd this (Finset.not_mem_empty p)
    show gridSum H W st.seeds = 0
    rw [gridSum_eq_sum]
    exact Finset.sum_eq_zero hz
  | succ fuel ih =>
    intro st hnn hcard
    unfold rgLoop
    by_cases hsum : gridSum H W st.seeds = 0
    · rw [if_pos hsum]
      exact hsum
    · rw [if_neg hsum]
      have hss := rgStep_posSet_ssubset depth H W thr sig st hnn hsum
      refine ih (rgStep depth H W thr sig st) ?_ ?_
      · intro p hp
        rcases rgStep_seeds depth H W thr sig st p.1 p.2 with h | h
        · rw [h]; exact hnn p hp
        · rw [h]
      · have hlt : (posSet H W (rgStep depth H W thr sig st).seeds).card <
            (posSet H W st.seeds).card := Finset.card_lt_card hss
        omega

/-- C10 (confirmed): for a 0/1 seed mask and a nonnegative depth map the
outer loop of `region_growing` terminates — whenever the seed sum is
nonzero, one iteration strictly shrinks the set of pixels holding a nonzero
seed (the maximal seed is cleared, and seeds are only ever cleared), so
after at most `rgFuel` (the initial number of nonzero seeds) iterations the
seed sum is zero and the `while` condition fails. -/
theorem C10_region_growing_terminates (movement_mask current_depth : Grid)
    (H W : ℕ) (thr : ℚ) (sig : ℕ)
    (hmask : ∀ i j, movement_mask i j = 0 ∨ movement_mask i j = 1)
    (hdepth : ∀ i j, 0 ≤ current_depth i j) :
    (∀ st : RGState, (∀ p ∈ pixelFinset H W, 0 ≤ st.seeds p.1 p.2) →
        gridSum H W st.seeds ≠ 0 →
        (posSet H W (rgStep current_depth H W thr sig st).seeds).card <
          (posSet H W st.seeds).card) ∧
    gridSum H W ((rgLoop current_depth H W thr sig
        (rgFuel H W (initialSeeds movement_mask current_depth))
        { seeds := initialSeeds movement_mask current_depth
          done := fun _ _ => 0
          masks := [] }).seeds) = 0 := by
  constructor
  · intro st hnn hsum
    exact Finset.card_lt_card (rgStep_posSet_ssubset current_depth H W thr sig st hnn hsum)
  · refine rgLoop_sum_zero current_depth H W thr sig _ _ ?_ (le_refl _)
    intro p _
    show 0 ≤ movement_mask p.1 p.2 * current_depth p.1 p.2
    rcases hmask p.1 p.2 with h | h
    · rw [h, zero_mul]
    · rw [h, one_mul]
      exact hdepth p.1 p.2

/-- C10 witness: a 2×2 frame with two flagged pixels terminates with an
all-zero seed array. -/
theorem C10_witness :
    (∀ i j, m22 i j = 0 ∨ m22 i j = 1) ∧
    gridSum 2 2 ((rgLoop d22 2 2 (1/20) 100
        (rgFuel 2 2 (initialSeeds m22 d22))
        { seeds := initialSeeds m22 d22
          done := fun _ _ => 0
          masks := [] }).seeds) = 0 := by
  have hm : ∀ i j, m22 i j = 0 ∨ m22 i j = 1 := by
    intro i j
    unfold m22
    split_ifs
    · exact Or.inr rfl
    · exact Or.inr rfl
    · exact Or.inl rfl
  have hd : ∀ i j, 0 ≤ d22 i j := by
    intro i j
    unfold d22
    split_ifs <;> norm_num
  exact ⟨hm, (C10_region_growing_terminates m22 d22 2 2 (1/20) 100 hm hd).2⟩

/- ===================================================================
   Part 14: BFS structure lemmas for claim C6
   =================================================================== -/

theorem admitCell_q_extends (depth : Grid) (H W : ℕ) (thr : ℚ) (ind : Pixel)
    (s : BFSState) (c : ℤ × ℤ) (p : Pixel) (hp : p ∈ s.q) :
    p ∈ (admitCell depth H W thr ind s c).q := by
  unfold admitCell
  dsimp only
  split_ifs <;> first
    | exact hp
    | exact List.mem_append_left _ hp

theorem admitCell_done_mono (depth : Grid) (H W : ℕ) (thr : ℚ) (ind : Pixel)
    (s : BFSState) (c : ℤ × ℤ) (p : Pixel)
    (hp : s.done p.1 p.2 = 1) :
    (admitCell depth H W thr ind s c).done p.1 p.2 = 1 := by
  unfold admitCell
  dsimp only
  split_ifs <;> try exact hp
  dsimp only
  unfold gridUpdate
  split_ifs
  · rfl
  · exact hp

theorem admitScan_done_mono (depth : Grid) (H W : ℕ) (thr : ℚ) (ind : Pixel)
    (st : BFSState) (p : Pixel)
    (hp : st.done p.1 p.2 = 1) :
    (admitScan depth H W thr ind st).done p.1 p.2 = 1 := by
  unfold admitScan
  exact foldl_prop_preserved (fun s : BFSState => s.done p.1 p.2 = 1)
    (fun s c hs => admitCell_done_mono depth H W thr ind s c p hs)
    (neighborCells ind) st hp

theorem admitScan_q_extends (depth : Grid) (H W : ℕ) (thr : ℚ) (ind : Pixel)
    (st : BFSState) (p : Pixel) (hp : p ∈ st.q) :
    p ∈ (admitScan depth H W thr ind st).q := by
  unfold admitScan
  exact foldl_prop_preserved (fun s : BFSState => p ∈ s.q)
    (fun s c hs => admitCell_q_extends depth H W thr ind s c p hs)
    (neighborCells ind) st hp

theorem admitCell_done_new (depth : Grid) (H W : ℕ) (thr : ℚ) (ind : Pixel)
    (s : BFSState) (c : ℤ × ℤ) (p : Pixel)
    (hp : (admitCell depth H W thr ind s c).done p.1 p.2 = 1) :
    s.done p.1 p.2 = 1 ∨ p ∈ (admitCell depth H W thr ind s c).q := by
  by_cases hd : s.done p.1 p.2 = 1
  · exact Or.inl hd
  · right
    unfold admitCell at hp ⊢
    dsimp only at hp ⊢
    split_ifs at hp ⊢ <;> try exact absurd hp hd
    dsimp only at hp ⊢
    unfold gridUpdate at hp
    by_cases hpc : p.1 = c.1.toNat ∧ p.2 = c.2.toNat
    · have : p = (c.1.toNat, c.2.toNat) := Prod.ext hpc.1 hpc.2
      rw [this]
      exact List.mem_append_right _ (List.mem_singleton.mpr rfl)
    · rw [if_neg hpc] at hp
      exact absurd hp hd

theorem admitScan_done_new (depth : Grid) (H W : ℕ) (thr : ℚ) (ind : Pixel)
    (st : BFSState) (p : Pixel)
    (hp : (admitScan depth H W thr ind st).done p.1 p.2 = 1) :
    st.done p.1 p.2 = 1 ∨ p ∈ (admitScan depth H W thr ind st).q := by
  unfold admitScan at hp ⊢
  refine foldl_prop_preserved
    (fun s : BFSState => s.done p.1 p.2 = 1 → st.done p.1 p.2 = 1 ∨ p ∈ s.q)
    ?_ (neighborCells ind) st (fun h => Or.inl h) hp
  intro s c hs hdone
  rcases admitCell_done_new depth H W thr ind s c p hdone with h | h
  · rcases hs h with h2 | h2
    · exact Or.inl h2
    · exact Or.inr (admitCell_q_extends depth H W thr ind s c p h2)
  · exact Or.inr h

theorem adj8_to_cell (ind p : Pixel) (H W : ℕ)
    (hadj : adj8 ind p) (h1 : p.1 < H) (h2 : p.2 < W) :
    ∃ c ∈ neighborCells ind, cellInBounds H W c ∧ (c.1.toNat, c.2.toNat) = p := by
  obtain ⟨hi, hj⟩ := hadj
  have hdi : (p.1 : ℤ) - ind.1 = -1 ∨ (p.1 : ℤ) - ind.1 = 0 ∨ (p.1 : ℤ) - ind.1 = 1 := by
    omega
  have hdj : (p.2 : ℤ) - ind.2 = -1 ∨ (p.2 : ℤ) - ind.2 = 0 ∨ (p.2 : ℤ) - ind.2 = 1 := by
    omega
  refine ⟨((p.1 : ℤ), (p.2 : ℤ)), ?_, ?_, ?_⟩
  · unfold neighborCells
    rw [List.mem_map]
    refine ⟨((p.1 : ℤ) - ind.1, (p.2 : ℤ) - ind.2), ?_, ?_⟩
    · rcases hdi with h | h | h <;> rcases hdj with h' | h' | h' <;>
        · rw [h, h']
          decide
    · refine Prod.ext ?_ ?_
      · show (ind.1 : ℤ) + ((p.1 : ℤ) - ind.1) = (p.1 : ℤ)
        ring
      · show (ind.2 : ℤ) + ((p.2 : ℤ) - ind.2) = (p.2 : ℤ)
        ring
  · refine ⟨Int.natCast_nonneg p.1, ?_, Int.natCast_nonneg p.2, ?_⟩
    · show ((p.1 : ℤ)) < (H : ℤ)
      exact_mod_cast h1
    · show ((p.2 : ℤ)) < (W : ℤ)
      exact_mod_cast h2
  · refine Prod.ext ?_ ?_
    · show ((p.1 : ℤ)).toNat = p.1
      exact Int.toNat_natCast p.1
    · show ((p.2 : ℤ)).toNat = p.2
      exact Int.toNat_natCast p.2

theorem admitScan_closes (depth : Grid) (H W : ℕ) (thr : ℚ) (ind : Pixel)
    (st : BFSState) (p : Pixel)
    (hadm : Admissible depth H W thr ind p) :
    (admitScan depth H W thr ind st).done p.1 p.2 = 1 := by
  obtain ⟨h1, h2, hadj, hdepth, hdelta⟩ := hadm
  obtain ⟨c, hcmem, hcb, hcp⟩ := adj8_to_cell ind p H W hadj h1 h2
  unfold admitScan
  refine foldl_prop_of_mem (fun s : BFSState => s.done p.1 p.2 = 1)
    c ?_ ?_ (neighborCells ind) st hcmem
  · intro s
    unfold admitCell
    rw [if_pos hcb]
    dsimp only
    by_cases hd : s.done c.1.toNat c.2.toNat = 1
    · rw [if_pos hd]
      rw [show c.1.toNat = p.1 from congrArg Prod.fst hcp,
        show c.2.toNat = p.2 from congrArg Prod.snd hcp] at hd
      exact hd
    · rw [if_neg hd]
      rw [if_neg (by
        rw [show c.1.toNat = p.1 from congrArg Prod.fst hcp,
          show c.2.toNat = p.2 from congrArg Prod.snd hcp]
        exact not_le.mpr hdepth)]
      rw [if_pos (by
        rw [show c.1.toNat = p.1 from congrArg Prod.fst hcp,
          show c.2.toNat = p.2 from congrArg Prod.snd hcp]
        exact hdelta)]
      dsimp only
      unfold gridUpdate
      rw [if_pos ⟨congrArg Prod.fst hcp.symm, congrArg Prod.snd hcp.symm⟩]
  · intro s c' hs
    exact admitCell_done_mono depth H W thr ind s c' p hs

theorem undone_update (H W : ℕ) (d : Grid) (p : Pixel) :
    (pixelFinset H W).filter (fun q => ¬ (gridUpdate d p 1) q.1 q.2 = 1) =
      ((pixelFinset H W).filter (fun q => ¬ d q.1 q.2 = 1)).erase p := by
  ext q
  rw [Finset.mem_erase, Finset.mem_filter, Finset.mem_filter]
  unfold gridUpdate
  by_cases hqp : q = p
  · subst hqp
    rw [if_pos ⟨rfl, rfl⟩]
    simp
  · have : ¬ (q.1 = p.1 ∧ q.2 = p.2) := fun hc => hqp (Prod.ext hc.1 hc.2)
    rw [if_neg this]
    constructor
    · rintro ⟨hm, hd⟩
      exact ⟨hqp, hm, hd⟩
    · rintro ⟨_, hm, hd⟩
      exact ⟨hm, hd⟩

theorem admitCell_measure (depth : Grid) (H W : ℕ) (thr : ℚ) (ind : Pixel)
    (s : BFSState) (c : ℤ × ℤ) :
    (admitCell depth H W thr ind s c).q.length +
      undoneCard H W (admitCell depth H W thr ind s c) =
    s.q.length + undoneCard H W s := by
  unfold admitCell
  dsimp only
  split_ifs with h1 h2 h3 h4 <;> try rfl
  unfold undoneCard
  dsimp only
  rw [List.length_append, List.length_singleton]
  rw [undone_update H W s.done (c.1.toNat, c.2.toNat)]
  have hmem : ((c.1.toNat, c.2.toNat) : Pixel) ∈
      (pixelFinset H W).filter (fun q => ¬ s.done q.1 q.2 = 1) := by
    rw [Finset.mem_filter]
    refine ⟨(mem_pixelFinset _).mpr ⟨?_, ?_⟩, h2⟩
    · obtain ⟨hc1, hc2, _, _⟩ := h1
      omega
    · obtain ⟨_, _, hc3, hc4⟩ := h1
      omega
  rw [Finset.card_erase_of_mem hmem]
  have hpos : 0 < ((pixelFinset H W).filter (fun q => ¬ s.done q.1 q.2 = 1)).card :=
    Finset.card_pos.mpr ⟨_, hmem⟩
  omega

theorem admitScan_measure (depth : Grid) (H W : ℕ) (thr : ℚ) (ind : Pixel)
    (st : BFSState) :
    (admitScan depth H W thr ind st).q.length +
      undoneCard H W (admitScan depth H W thr ind st) =
    st.q.length + undoneCard H W st := by
  unfold admitScan
  refine foldl_prop_preserved
    (fun s : BFSState => s.q.length + undoneCard H W s = st.q.length + undoneCard H W st)
    ?_ (neighborCells ind) st rfl
  intro s c hs
  rw [admitCell_measure depth H W thr ind s c]
  exact hs

theorem bfsRun_completes (depth : Grid) (H W : ℕ) (thr : ℚ) :
    ∀ (fuel : ℕ) (s : BFSState),
      s.q.length + undoneCard H W s ≤ fuel →
      (bfsRun depth H W thr fuel s).q = [] := by
  intro fuel
  induction fuel with
  | zero =>
    intro s hs
    have : s.q.length = 0 := by omega
    exact List.length_eq_zero.mp this
  | succ fuel ih =>
    intro s hs
    unfold bfsRun
    match hq : s.q with
    | [] => exact hq
    | ind :: rest =>
      refine ih _ ?_
      rw [admitScan_measure depth H W thr ind { s with q := rest }]
      have h1 : ({ s with q := rest } : BFSState).q.length = rest.length := rfl
      have h2 : undoneCard H W { s with q := rest } = undoneCard H W s := rfl
      rw [h1, h2]
      have h3 : s.q.length = rest.length + 1 := by rw [hq]; rfl
      omega

theorem undoneCard_le (H W : ℕ) (s : BFSState) : undoneCard H W s ≤ H * W := by
  unfold undoneCard
  calc ((pixelFinset H W).filter _).card ≤ (pixelFinset H W).card :=
        Finset.card_filter_le _ _
    _ = H * W := by
        unfold pixelFinset
        rw [Finset.card_product, Finset.card_range, Finset.card_range]

theorem bfsRun_pres (depth : Grid) (H W : ℕ) (thr : ℚ) (P : BFSState → Prop)
    (hcell : ∀ (ind : Pixel) (s : BFSState) (c : ℤ × ℤ),
      P s → P (admitCell depth H W thr ind s c))
    (hrest : ∀ (s : BFSState) (rest : List Pixel), P s → P { s with q := rest }) :
    ∀ (fuel : ℕ) (s : BFSState), P s → P (bfsRun depth H W thr fuel s) := by
  intro fuel
  induction fuel with
  | zero => intro s hs; exact hs
  | succ fuel ih =>
    intro s hs
    unfold bfsRun
    match hq : s.q with
    | [] => exact hs
    | ind :: rest =>
      refine ih _ ?_
      unfold admitScan
      exact foldl_prop_preserved P (fun s' c hp => hcell ind s' c hp)
        (neighborCells ind) _ (hrest s rest hs)

theorem admitCell_q_done (depth : Grid) (H W : ℕ) (thr : ℚ) (ind : Pixel)
    (s : BFSState) (c : ℤ × ℤ)
    (hqd : ∀ p ∈ s.q, s.done p.1 p.2 = 1) :
    ∀ p ∈ (admitCell depth H W thr ind s c).q,
      (admitCell depth H W thr ind s c).done p.1 p.2 = 1 := by
  intro p hp
  unfold admitCell at hp ⊢
  dsimp only at hp ⊢
  split_ifs at hp ⊢ <;> try exact hqd p hp
  dsimp only at hp ⊢
  unfold gridUpdate
  rcases List.mem_append.mp hp with h | h
  · by_cases hpc : p.1 = c.1.toNat ∧ p.2 = c.2.toNat
    · rw [if_pos hpc]
    · rw [if_neg hpc]
      exact hqd p h
  · rw [List.mem_singleton] at h
    subst h
    rw [if_pos ⟨rfl, rfl⟩]

theorem bfs_step_inv (depth : Grid) (H W : ℕ) (thr : ℚ) (s : BFSState)
    (ind : Pixel) (rest : List Pixel)
    (hInv : bfsInv depth H W thr s) (hq : s.q = ind :: rest) :
    bfsInv depth H W thr (admitScan depth H W thr ind { s with q := rest }) := by
  obtain ⟨hq_done, hdone_closed⟩ := hInv
  constructor
  · unfold admitScan
    refine foldl_prop_preserved
      (fun s' : BFSState => ∀ p ∈ s'.q, s'.done p.1 p.2 = 1)
      ?_ (neighborCells ind) _ ?_
    · intro s' c hs'
      exact admitCell_q_done depth H W thr ind s' c hs'
    · intro p hp
      exact hq_done p (by rw [hq]; exact List.mem_cons_of_mem ind hp)
  · intro ind' hdone'
    rcases admitScan_done_new depth H W thr ind { s with q := rest } ind' hdone'
      with hold | hqnew
    · have holds : s.done ind'.1 ind'.2 = 1 := hold
      rcases hdone_closed ind' holds with hinq | hclosed
      · rw [hq] at hinq
        rcases List.mem_cons.mp hinq with heq | hrest'
        · subst heq
          right
          intro p hadm
          exact admitScan_closes depth H W thr ind' { s with q := rest } p hadm
        · left
          exact admitScan_q_extends depth H W thr ind { s with q := rest } ind' hrest'
      · right
        intro p hadm
        exact admitScan_done_mono depth H W thr ind { s with q := rest } p (hclosed p hadm)
    · left
      exact hqnew

theorem bfsRun_inv (depth : Grid) (H W : ℕ) (thr : ℚ) :
    ∀ (fuel : ℕ) (s : BFSState), bfsInv depth H W thr s →
      bfsInv depth H W thr (bfsRun depth H W thr fuel s) := by
  intro fuel
  induction fuel with
  | zero => intro s hs; exact hs
  | succ fuel ih =>
    intro s hs
    unfold bfsRun
    match hq : s.q with
    | [] => exact hs
    | ind :: rest => exact ih _ (bfs_step_inv depth H W thr s ind rest hs hq)

theorem bfs_closure (depth : Grid) (H W : ℕ) (thr : ℚ) (fuel : ℕ) (s : BFSState)
    (hfuel : s.q.length + undoneCard H W s ≤ fuel)
    (hinv : bfsInv depth H W thr s)
    (ind : Pixel) (hdone : (bfsRun depth H W thr fuel s).done ind.1 ind.2 = 1)
    (p : Pixel) (hadm : Admissible depth H W thr ind p) :
    (bfsRun depth H W thr fuel s).done p.1 p.2 = 1 := by
  rcases (bfsRun_inv depth H W thr fuel s hinv).2 ind hdone with hinq | hclosed
  · rw [bfsRun_completes depth H W thr fuel s hfuel] at hinq
    exact absurd hinq (List.not_mem_nil ind)
  · exact hclosed p hadm

theorem bfsRun_done_mono (depth : Grid) (H W : ℕ) (thr : ℚ) (fuel : ℕ)
    (s : BFSState) (p : Pixel) (h : s.done p.1 p.2 = 1) :
    (bfsRun depth H W thr fuel s).done p.1 p.2 = 1 :=
  bfsRun_pres depth H W thr (fun s' => s'.done p.1 p.2 = 1)
    (fun ind s' c h' => admitCell_done_mono depth H W thr ind s' c p h')
    (fun _ _ h' => h') fuel s h

theorem admitCell_cases (depth : Grid) (H W : ℕ) (thr : ℚ) (ind : Pixel)
    (s : BFSState) (c : ℤ × ℤ) :
    admitCell depth H W thr ind s c = s ∨
    ∃ p0 : Pixel, p0.1 < H ∧ p0.2 < W ∧ ¬ s.done p0.1 p0.2 = 1 ∧
      depth p0.1 p0.2 < 1 ∧
      admitCell depth H W thr ind s c =
        { q := s.q ++ [p0]
          seeds := gridUpdate s.seeds p0 0
          done := gridUpdate s.done p0 1
          mask := gridUpdate s.mask p0 1 } := by
  unfold admitCell
  dsimp only
  split_ifs with h1 h2 h3 h4 <;> try exact Or.inl rfl
  right
  obtain ⟨hb1, hb2, hb3, hb4⟩ := h1
  exact ⟨(c.1.toNat, c.2.toNat), by omega, by omega, h2, lt_of_not_le h3, rfl⟩

theorem admitCell_done_inB (depth : Grid) (H W : ℕ) (thr : ℚ) (ind : Pixel)
    (B : Finset Pixel)
    (hout : ∀ i j, i < H → j < W → ((i, j) : Pixel) ∉ B → (1 : ℚ) ≤ depth i j)
    (s : BFSState) (c : ℤ × ℤ)
    (h : ∀ p : Pixel, s.done p.1 p.2 = 1 → p ∈ B) :
    ∀ p : Pixel, (admitCell depth H W thr ind s c).done p.1 p.2 = 1 → p ∈ B := by
  intro p hp
  rcases admitCell_cases depth H W thr ind s c with he | ⟨p0, hh, hw, hnd, hdlt, he⟩
  · rw [he] at hp
    exact h p hp
  · rw [he] at hp
    dsimp only at hp
    unfold gridUpdate at hp
    by_cases hpc : p.1 = p0.1 ∧ p.2 = p0.2
    · have hpe : p = p0 := Prod.ext hpc.1 hpc.2
      rw [hpe]
      by_contra hnB
      exact absurd (hout p0.1 p0.2 hh hw hnB) (not_le.mpr hdlt)
    · rw [if_neg hpc] at hp
      exact h p hp

theorem admitCell_mask_sync (depth : Grid) (H W : ℕ) (thr : ℚ) (ind : Pixel)
    (s : BFSState) (c : ℤ × ℤ)
    (h : ∀ p : Pixel, s.mask p.1 p.2 = if s.done p.1 p.2 = 1 then 1 else 0) :
    ∀ p : Pixel, (admitCell depth H W thr ind s c).mask p.1 p.2 =
      if (admitCell depth H W thr ind s c).done p.1 p.2 = 1 then 1 else 0 := by
  intro p
  rcases admitCell_cases depth H W thr ind s c with he | ⟨p0, hh, hw, hnd, hdlt, he⟩
  · rw [he]
    exact h p
  · rw [he]
    dsimp only
    unfold gridUpdate
    by_cases hpc : p.1 = p0.1 ∧ p.2 = p0.2
    · rw [if_pos hpc, if_pos hpc, if_pos rfl]
    · rw [if_neg hpc, if_neg hpc]
      exact h p

theorem admitCell_seeds_sync (depth : Grid) (H W : ℕ) (thr : ℚ) (ind : Pixel)
    (s0 : Grid) (s : BFSState) (c : ℤ × ℤ)
    (h : ∀ p : Pixel, s.seeds p.1 p.2 =
      if s.done p.1 p.2 = 1 then 0 else s0 p.1 p.2) :
    ∀ p : Pixel, (admitCell depth H W thr ind s c).seeds p.1 p.2 =
      if (admitCell depth H W thr ind s c).done p.1 p.2 = 1 then 0
      else s0 p.1 p.2 := by
  intro p
  rcases admitCell_cases depth H W thr ind s c with he | ⟨p0, hh, hw, hnd, hdlt, he⟩
  · rw [he]
    exact h p
  · rw [he]
    dsimp only
    unfold gridUpdate
    by_cases hpc : p.1 = p0.1 ∧ p.2 = p0.2
    · rw [if_pos hpc, if_pos hpc, if_pos rfl]
    · rw [if_neg hpc, if_neg hpc]
      exact h p

theorem blob_init_inv (depth : Grid) (H W : ℕ) (thr : ℚ) (s0 : Grid)
    (root : Pixel) : bfsInv depth H W thr (blobInit s0 root) := by
  constructor
  · intro p hp
    have hp' : p ∈ [root] := hp
    rw [List.mem_singleton] at hp'
    rw [hp']
    show gridUpdate (fun _ _ => 0) root 1 root.1 root.2 = 1
    unfold gridUpdate
    rw [if_pos ⟨rfl, rfl⟩]
  · intro ind hdone
    left
    show ind ∈ [root]
    have hd : gridUpdate (fun _ _ => 0) root 1 ind.1 ind.2 = 1 := hdone
    unfold gridUpdate at hd
    by_cases hc : ind.1 = root.1 ∧ ind.2 = root.2
    · exact List.mem_singleton.mpr (Prod.ext hc.1 hc.2)
    · rw [if_neg hc] at hd
      exact absurd hd (by norm_num)

theorem blob_bfs_done (depth : Grid) (H W : ℕ) (thr : ℚ) (s0 : Grid)
    (B : Finset Pixel) (root : Pixel) (hroot : root ∈ B)
    (hbound : ∀ p ∈ B, p.1 < H ∧ p.2 < W)
    (hlt : ∀ p ∈ B, depth p.1 p.2 < 1)
    (hclose : ∀ p ∈ B, ∀ q ∈ B, adj8 p q → |depth q.1 q.2 - depth p.1 p.2| < thr)
    (hout : ∀ i j, i < H → j < W → ((i, j) : Pixel) ∉ B → (1 : ℚ) ≤ depth i j)
    (hconn : blobConnected B) :
    ∀ p : Pixel,
      (bfsRun depth H W thr (H * W + 1) (blobInit s0 root)).done p.1 p.2 = 1 ↔
        p ∈ B := by
  have hfuel : (blobInit s0 root).q.length + undoneCard H W (blobInit s0 root) ≤
      H * W + 1 := by
    have h1 : (blobInit s0 root).q.length = 1 := rfl
    have h2 := undoneCard_le H W (blobInit s0 root)
    omega
  have hinv := blob_init_inv depth H W thr s0 root
  intro p
  constructor
  · intro hdone
    have hforward : ∀ q : Pixel,
        (bfsRun depth H W thr (H * W + 1) (blobInit s0 root)).done q.1 q.2 = 1 →
          q ∈ B := by
      refine bfsRun_pres depth H W thr
        (fun s => ∀ q : Pixel, s.done q.1 q.2 = 1 → q ∈ B)
        (fun ind s c hs => admitCell_done_inB depth H W thr ind B hout s c hs)
        (fun s rest hs => hs) (H * W + 1) (blobInit s0 root) ?_
      intro q hq
      have hd : gridUpdate (fun _ _ => 0) root 1 q.1 q.2 = 1 := hq
      unfold gridUpdate at hd
      by_cases hc : q.1 = root.1 ∧ q.2 = root.2
      · rw [Prod.ext hc.1 hc.2]
        exact hroot
      · rw [if_neg hc] at hd
        exact absurd hd (by norm_num)
    exact hforward p hdone
  · intro hp
    have hrtg : Relation.ReflTransGen (blobStep B) root p := hconn root hroot p hp
    clear hp
    induction hrtg with
    | refl =>
      refine bfsRun_done_mono depth H W thr _ _ root ?_
      show gridUpdate (fun _ _ => 0) root 1 root.1 root.2 = 1
      unfold gridUpdate
      rw [if_pos ⟨rfl, rfl⟩]
    | tail hab hbc ih =>
      obtain ⟨hbB, hcB, hadj⟩ := hbc
      refine bfs_closure depth H W thr (H * W + 1) (blobInit s0 root) hfuel hinv
        _ ih _ ?_
      exact ⟨(hbound _ hcB).1, (hbound _ hcB).2, hadj, hlt _ hcB,
        hclose _ hbB _ hcB hadj⟩

theorem blob_bfs_mask (depth : Grid) (H W : ℕ) (thr : ℚ) (s0 : Grid)
    (root : Pixel) :
    ∀ p : Pixel,
      (bfsRun depth H W thr (H * W + 1) (blobInit s0 root)).mask p.1 p.2 =
        if (bfsRun depth H W thr (H * W + 1) (blobInit s0 root)).done p.1 p.2 = 1
        then 1 else 0 := by
  refine bfsRun_pres depth H W thr
    (fun s => ∀ p : Pixel, s.mask p.1 p.2 = if s.done p.1 p.2 = 1 then 1 else 0)
    (fun ind s c hs => admitCell_mask_sync depth H W thr ind s c hs)
    (fun s rest hs => hs) (H * W + 1) (blobInit s0 root) ?_
  intro p
  show gridUpdate (fun _ _ => 0) root 1 p.1 p.2 =
    if gridUpdate (fun _ _ => 0) root 1 p.1 p.2 = 1 then 1 else 0
  unfold gridUpdate
  by_cases hc : p.1 = root.1 ∧ p.2 = root.2
  · rw [if_pos hc, if_pos rfl]
  · rw [if_neg hc]
    show (0 : ℚ) = if (0 : ℚ) = 1 then 1 else 0
    norm_num

theorem blob_bfs_seeds (depth : Grid) (H W : ℕ) (thr : ℚ) (s0 : Grid)
    (root : Pixel) :
    ∀ p : Pixel,
      (bfsRun depth H W thr (H * W + 1) (blobInit s0 root)).seeds p.1 p.2 =
        if (bfsRun depth H W thr (H * W + 1) (blobInit s0 root)).done p.1 p.2 = 1
        then 0 else s0 p.1 p.2 := by
  refine bfsRun_pres depth H W thr
    (fun s => ∀ p : Pixel, s.seeds p.1 p.2 =
      if s.done p.1 p.2 = 1 then 0 else s0 p.1 p.2)
    (fun ind s c hs => admitCell_seeds_sync depth H W thr ind s0 s c hs)
    (fun s rest hs => hs) (H * W + 1) (blobInit s0 root) ?_
  intro p
  show gridUpdate s0 root 0 p.1 p.2 =
    if gridUpdate (fun _ _ => 0) root 1 p.1 p.2 = 1 then 0 else s0 p.1 p.2
  unfold gridUpdate
  by_cases hc : p.1 = root.1 ∧ p.2 = root.2
  · rw [if_pos hc, if_pos hc, if_pos rfl]
  · rw [if_neg hc, if_neg hc]
    show s0 p.1 p.2 = if (0 : ℚ) = 1 then 0 else s0 p.1 p.2
    norm_num

theorem rgLoop_fix (depth : Grid) (H W : ℕ) (thr : ℚ) (sig : ℕ) :
    ∀ (n : ℕ) (st : RGState), gridSum H W st.seeds = 0 →
      rgLoop depth H W thr sig n st = st := by
  intro n st h
  cases n with
  | zero => rfl
  | succ n =>
    unfold rgLoop
    rw [if_pos h]

theorem blob_rgLoop (depth : Grid) (H W : ℕ) (thr : ℚ) (sig : ℕ)
    (B : Finset Pixel) (s0 : Grid)
    (hseeds : ∀ p : Pixel, s0 p.1 p.2 = if p ∈ B then depth p.1 p.2 else 0)
    (hbound : ∀ p ∈ B, p.1 < H ∧ p.2 < W)
    (hposd : ∀ p ∈ B, 0 < depth p.1 p.2)
    (hlt : ∀ p ∈ B, depth p.1 p.2 < 1)
    (hclose : ∀ p ∈ B, ∀ q ∈ B, adj8 p q → |depth q.1 q.2 - depth p.1 p.2| < thr)
    (hout : ∀ i j, i < H → j < W → ((i, j) : Pixel) ∉ B → (1 : ℚ) ≤ depth i j)
    (hconn : blobConnected B) (hne : B.Nonempty) :
    ∀ fuel : ℕ, 1 ≤ fuel →
      (rgLoop depth H W thr sig fuel
        { seeds := s0, done := fun _ _ => 0, masks := [] }).masks =
      if (B.card : ℚ) > (sig : ℚ)
      then [fun i j => if ((i, j) : Pixel) ∈ B then (1 : ℚ) else 0] else [] := by
  obtain ⟨p0, hp0⟩ := hne
  have hBsub : B ⊆ pixelFinset H W := fun p hp => (mem_pixelFinset p).mpr (hbound p hp)
  have hsum0 : ¬ gridSum H W s0 = 0 := by
    rw [gridSum_eq_sum]
    refine ne_of_gt (Finset.sum_pos' ?_ ⟨p0, hBsub hp0, ?_⟩)
    · intro p _
      rw [hseeds p]
      split_ifs with h
      · exact le_of_lt (hposd p h)
      · exact le_refl 0
    · rw [hseeds p0, if_pos hp0]
      exact hposd p0 hp0
  have hplne : pixelList H W ≠ [] := by
    intro hnil
    have hmem : p0 ∈ pixelList H W := (mem_pixelList p0).mpr (hbound p0 hp0)
    rw [hnil] at hmem
    exact List.not_mem_nil p0 hmem
  obtain ⟨hrootmem, hrootmax⟩ := argmaxPixel_spec H W s0 hplne
  have hroot : argmaxPixel H W s0 ∈ B := by
    by_contra hnB
    have h1 : s0 (argmaxPixel H W s0).1 (argmaxPixel H W s0).2 = 0 := by
      rw [hseeds (argmaxPixel H W s0), if_neg hnB]
    have h2 : s0 p0.1 p0.2 ≤ 0 := by
      rw [← h1]
      exact hrootmax p0 ((mem_pixelList p0).mpr (hbound p0 hp0))
    have h3 : 0 < s0 p0.1 p0.2 := by
      rw [hseeds p0, if_pos hp0]
      exact hposd p0 hp0
    exact absurd h2 (not_le.mpr h3)
  have hdone := blob_bfs_done depth H W thr s0 B (argmaxPixel H W s0) hroot
    hbound hlt hclose hout hconn
  have hmask' := blob_bfs_mask depth H W thr s0 (argmaxPixel H W s0)
  have hseeds' := blob_bfs_seeds depth H W thr s0 (argmaxPixel H W s0)
  have hM : ∀ p : Pixel,
      (bfsRun depth H W thr (H * W + 1) (blobInit s0 (argmaxPixel H W s0))).mask
        p.1 p.2 = if p ∈ B then (1 : ℚ) else 0 := by
    intro p
    rw [hmask' p]
    by_cases hb : p ∈ B
    · rw [if_pos ((hdone p).mpr hb), if_pos hb]
    · rw [if_neg (fun hd => hb ((hdone p).mp hd)), if_neg hb]
  have hsumM : gridSum H W
      (bfsRun depth H W thr (H * W + 1) (blobInit s0 (argmaxPixel H W s0))).mask =
      (B.card : ℚ) := by
    rw [gridSum_eq_sum]
    rw [Finset.sum_congr rfl (fun p _ => hM p)]
    rw [Finset.sum_ite_mem]
    rw [Finset.inter_eq_right.mpr hBsub]
    rw [Finset.sum_const, nsmul_eq_mul, mul_one]
  have hzero : gridSum H W
      (bfsRun depth H W thr (H * W + 1) (blobInit s0 (argmaxPixel H W s0))).seeds
      = 0 := by
    rw [gridSum_eq_sum]
    refine Finset.sum_eq_zero ?_
    intro p _
    rw [hseeds' p]
    by_cases hb : p ∈ B
    · rw [if_pos ((hdone p).mpr hb)]
    · rw [if_neg (fun hd => hb ((hdone p).mp hd)), hseeds p, if_neg hb]
  have hMfun :
      (bfsRun depth H W thr (H * W + 1) (blobInit s0 (argmaxPixel H W s0))).mask =
      fun i j => if ((i, j) : Pixel) ∈ B then (1 : ℚ) else 0 := by
    funext i j
    exact hM (i, j)
  intro fuel hfuel
  obtain ⟨n, rfl⟩ : ∃ n, fuel = n + 1 := ⟨fuel - 1, by omega⟩
  unfold rgLoop
  dsimp only
  rw [if_neg hsum0]
  have hstep : rgStep depth H W thr sig
      { seeds := s0, done := fun _ _ => 0, masks := [] } =
      { seeds := (bfsRun depth H W thr (H * W + 1)
          (blobInit s0 (argmaxPixel H W s0))).seeds
        done := (bfsRun depth H W thr (H * W + 1)
          (blobInit s0 (argmaxPixel H W s0))).done
        masks := if gridSum H W (bfsRun depth H W thr (H * W + 1)
            (blobInit s0 (argmaxPixel H W s0))).mask > (sig : ℚ)
          then [] ++ [(bfsRun depth H W thr (H * W + 1)
            (blobInit s0 (argmaxPixel H W s0))).mask]
          else [] } := rfl
  rw [hstep]
  rw [rgLoop_fix depth H W thr sig n _ hzero]
  dsimp only
  rw [hsumM, hMfun, List.nil_append]

theorem region_growing_blob (movement_mask depth : Grid) (H W : ℕ) (thr : ℚ)
    (sig : ℕ) (B : Finset Pixel)
    (hmask : ∀ i j, movement_mask i j = if ((i, j) : Pixel) ∈ B then 1 else 0)
    (hbound : ∀ p ∈ B, p.1 < H ∧ p.2 < W)
    (hposd : ∀ p ∈ B, 0 < depth p.1 p.2)
    (hlt : ∀ p ∈ B, depth p.1 p.2 < 1)
    (hclose : ∀ p ∈ B, ∀ q ∈ B, adj8 p q → |depth q.1 q.2 - depth p.1 p.2| < thr)
    (hout : ∀ i j, i < H → j < W → ((i, j) : Pixel) ∉ B → (1 : ℚ) ≤ depth i j)
    (hconn : blobConnected B) (hne : B.Nonempty) :
    region_growing movement_mask depth H W thr sig =
      if (B.card : ℚ) > (sig : ℚ)
      then [fun i j => if ((i, j) : Pixel) ∈ B then (1 : ℚ) else 0] else [] := by
  have hmaskp : ∀ p : Pixel, movement_mask p.1 p.2 = if p ∈ B then 1 else 0 :=
    fun p => hmask p.1 p.2
  have hseeds : ∀ p : Pixel, initialSeeds movement_mask depth p.1 p.2 =
      if p ∈ B then depth p.1 p.2 else 0 := by
    intro p
    unfold initialSeeds
    rw [hmaskp p]
    split_ifs with h
    · rw [one_mul]
    · rw [zero_mul]
  have hposSet : posSet H W (initialSeeds movement_mask depth) = B := by
    ext p
    unfold posSet
    rw [Finset.mem_filter, mem_pixelFinset]
    constructor
    · rintro ⟨hbnd, hnz⟩
      by_contra hnB
      rw [hseeds p, if_neg hnB] at hnz
      exact hnz rfl
    · intro hpB
      refine ⟨hbound p hpB, ?_⟩
      rw [hseeds p, if_pos hpB]
      exact ne_of_gt (hposd p hpB)
  have hfuel : 1 ≤ rgFuel H W (initialSeeds movement_mask depth) := by
    unfold rgFuel
    rw [hposSet]
    exact Finset.card_pos.mpr hne
  show (rgLoop depth H W thr sig (rgFuel H W (initialSeeds movement_mask depth))
    { seeds := initialSeeds movement_mask depth
      done := fun _ _ => 0
      masks := [] }).masks = _
  exact blob_rgLoop depth H W thr sig B (initialSeeds movement_mask depth) hseeds
    hbound hposd hlt hclose hout hconn hne _ hfuel

theorem adj8_symm (p q : Pixel) (h : adj8 p q) : adj8 q p := by
  obtain ⟨h1, h2⟩ := h
  unfold adj8 at *
  constructor <;> omega

theorem adj8_step (j : ℕ) : adj8 ((0 : ℕ), j) ((0 : ℕ), j + 1) := by
  unfold adj8
  constructor <;> simp

theorem rowBlob_mem (W : ℕ) (p : Pixel) : p ∈ rowBlob W ↔ p.1 = 0 ∧ p.2 < W := by
  unfold rowBlob
  rw [Finset.mem_product, Finset.mem_singleton, Finset.mem_range]

theorem rowBlob_card (W : ℕ) : (rowBlob W).card = W := by
  unfold rowBlob
  rw [Finset.card_product, Finset.card_singleton, Finset.card_range, one_mul]

theorem rowMask_indicator (W : ℕ) :
    ∀ i j, rowMask W i j = if ((i, j) : Pixel) ∈ rowBlob W then 1 else 0 := by
  intro i j
  unfold rowMask
  by_cases h : i = 0 ∧ j < W
  · rw [if_pos h, if_pos ((rowBlob_mem W (i, j)).mpr h)]
  · rw [if_neg h, if_neg (fun hm => h ((rowBlob_mem W (i, j)).mp hm))]

theorem rowBlob_chain (W : ℕ) : ∀ j : ℕ, j < W →
    Relation.ReflTransGen (blobStep (rowBlob W)) ((0 : ℕ), (0 : ℕ)) ((0 : ℕ), j) := by
  intro j
  induction j with
  | zero => intro _; exact Relation.ReflTransGen.refl
  | succ j ih =>
    intro h
    refine Relation.ReflTransGen.tail (ih (by omega)) ?_
    exact ⟨(rowBlob_mem W ((0 : ℕ), j)).mpr ⟨rfl, by omega⟩,
      (rowBlob_mem W ((0 : ℕ), j + 1)).mpr ⟨rfl, h⟩, adj8_step j⟩

theorem rowBlob_connected (W : ℕ) : blobConnected (rowBlob W) := by
  have hsym : Symmetric (blobStep (rowBlob W)) := by
    rintro a b ⟨ha, hb, hadj⟩
    exact ⟨hb, ha, adj8_symm a b hadj⟩
  intro p hp q hq
  obtain ⟨hp1, hp2⟩ := (rowBlob_mem W p).mp hp
  obtain ⟨hq1, hq2⟩ := (rowBlob_mem W q).mp hq
  have h1 := rowBlob_chain W p.2 hp2
  have h2 := rowBlob_chain W q.2 hq2
  have hp' : p = ((0 : ℕ), p.2) := Prod.ext hp1 rfl
  have hq' : q = ((0 : ℕ), q.2) := Prod.ext hq1 rfl
  rw [hp', hq']
  exact Relation.ReflTransGen.trans ((Relation.ReflTransGen.symmetric hsym) h1) h2

theorem rowBlob_hyps (W : ℕ) (hW : 1 ≤ W) :
    (∀ i j, rowMask W i j = if ((i, j) : Pixel) ∈ rowBlob W then 1 else 0) ∧
    (∀ p ∈ rowBlob W, p.1 < 1 ∧ p.2 < W) ∧
    (∀ p ∈ rowBlob W, 0 < rowDepth W p.1 p.2) ∧
    (∀ p ∈ rowBlob W, rowDepth W p.1 p.2 < 1) ∧
    (∀ p ∈ rowBlob W, ∀ q ∈ rowBlob W, adj8 p q →
      |rowDepth W q.1 q.2 - rowDepth W p.1 p.2| < 1/20) ∧
    (∀ i j, i < 1 → j < W → ((i, j) : Pixel) ∉ rowBlob W →
      (1 : ℚ) ≤ rowDepth W i j) ∧
    blobConnected (rowBlob W) ∧ (rowBlob W).Nonempty := by
  refine ⟨rowMask_indicator W, ?_, ?_, ?_, ?_, ?_, rowBlob_connected W, ?_⟩
  · intro p hp
    obtain ⟨h1, h2⟩ := (rowBlob_mem W p).mp hp
    exact ⟨by omega, h2⟩
  · intro p hp
    obtain ⟨h1, h2⟩ := (rowBlob_mem W p).mp hp
    unfold rowDepth
    rw [if_pos ⟨h1, h2⟩]
    norm_num
  · intro p hp
    obtain ⟨h1, h2⟩ := (rowBlob_mem W p).mp hp
    unfold rowDepth
    rw [if_pos ⟨h1, h2⟩]
    norm_num
  · intro p hp q hq _
    obtain ⟨hp1, hp2⟩ := (rowBlob_mem W p).mp hp
    obtain ⟨hq1, hq2⟩ := (rowBlob_mem W q).mp hq
    unfold rowDepth
    rw [if_pos ⟨hq1, hq2⟩, if_pos ⟨hp1, hp2⟩]
    norm_num
  · intro i j hi hj hnB
    unfold rowDepth
    rw [if_neg (fun hc => hnB ((rowBlob_mem W (i, j)).mpr hc))]
    norm_num
  · exact ⟨((0 : ℕ), (0 : ℕ)), (rowBlob_mem W ((0 : ℕ), (0 : ℕ))).mpr ⟨rfl, hW⟩⟩

/-- C6: a seed mask flagging exactly an 8-connected blob of pixels with
positive in-range depths (below 1), adjacent blob depths differing by less
than the 0.05 threshold, and out-of-range depth everywhere else, makes
`region_growing` return exactly one mask covering the blob — but only when
the blob holds STRICTLY more than the 100-pixel significance threshold
(`np.sum(mask) > significant_number_of_points`); any blob of at most 100
pixels (in particular one of exactly 100, which the claim's "at least 100"
admits, or the claim's 5-pixel blob) produces no output mask. -/
theorem C6_blob_region (movement_mask depth : Grid) (H W : ℕ) (B : Finset Pixel)
    (hmask : ∀ i j, movement_mask i j = if ((i, j) : Pixel) ∈ B then 1 else 0)
    (hbound : ∀ p ∈ B, p.1 < H ∧ p.2 < W)
    (hposd : ∀ p ∈ B, 0 < depth p.1 p.2)
    (hlt : ∀ p ∈ B, depth p.1 p.2 < 1)
    (hclose : ∀ p ∈ B, ∀ q ∈ B, adj8 p q →
      |depth q.1 q.2 - depth p.1 p.2| < 1/20)
    (hout : ∀ i j, i < H → j < W → ((i, j) : Pixel) ∉ B → (1 : ℚ) ≤ depth i j)
    (hconn : blobConnected B) (hne : B.Nonempty) :
    (100 < B.card →
      region_growing movement_mask depth H W (1/20) 100 =
        [fun i j => if ((i, j) : Pixel) ∈ B then (1 : ℚ) else 0]) ∧
    (B.card ≤ 100 →
      region_growing movement_mask depth H W (1/20) 100 = []) := by
  have h := region_growing_blob movement_mask depth H W (1/20) 100 B hmask hbound
    hposd hlt hclose hout hconn hne
  constructor
  · intro hcard
    rw [h, if_pos (by exact_mod_cast hcard)]
  · intro hcard
    rw [h, if_neg (not_lt.mpr (by exact_mod_cast hcard))]

/-- C6 counterexample: on a 1×100 frame whose flagged blob is a full row of
exactly 100 pixels — a blob "of at least 100 pixels" with valid depths and
zero adjacent-depth deltas — `region_growing` returns no mask at all: the
source keeps a region only when `np.sum(mask) > significant_number_of_points`
holds strictly, and 100 > 100 fails. -/
theorem C6_counterexample :
    (rowBlob 100).card = 100 ∧
    region_growing (rowMask 100) (rowDepth 100) 1 100 (1/20) 100 = [] := by
  obtain ⟨h1, h2, h3, h4, h5, h6, h7, h8⟩ := rowBlob_hyps 100 (by omega)
  refine ⟨by rw [rowBlob_card], ?_⟩
  rw [region_growing_blob (rowMask 100) (rowDepth 100) 1 100 (1/20) 100
    (rowBlob 100) h1 h2 h3 h4 h5 h6 h7 h8]
  rw [if_neg (not_lt.mpr (by rw [rowBlob_card]))]

/-- C6 witness: a 1×101 full-row blob of 101 > 100 pixels produces exactly
one output mask, the indicator of the blob. -/
theorem C6_witness :
    101 ≤ (rowBlob 101).card ∧
    region_growing (rowMask 101) (rowDepth 101) 1 101 (1/20) 100 =
      [fun i j => if ((i, j) : Pixel) ∈ rowBlob 101 then (1 : ℚ) else 0] := by
  obtain ⟨h1, h2, h3, h4, h5, h6, h7, h8⟩ := rowBlob_hyps 101 (by omega)
  refine ⟨by rw [rowBlob_card], ?_⟩
  exact (C6_blob_region (rowMask 101) (rowDepth 101) 1 101 (rowBlob 101)
    h1 h2 h3 h4 h5 h6 h7 h8).1 (by rw [rowBlob_card]; omega)
